import Mathlib

/-!
Verification development for the "Trends" Office task-pane add-in
(`ModernTrendWeb/scripts/ModernTrend.js`).

The JavaScript source is shallowly embedded: JS cell values become the
inductive `JsValue`, JS numbers (which may be `NaN`) become `Option ℚ`
(`none` models `NaN`), matrices become `List (List JsValue)`, and code
paths that would raise a JS `TypeError` (property access on `undefined`,
method call on a non-string, ...) are modelled with `Except Unit`.
External host/library builtins (`parseFloat`, jQuery's `isNumeric`)
are modelled as executable Lean functions over the embedded values.
-/

namespace ModernTrend

/-- A JavaScript value as it occurs in spreadsheet cell matrices:
`null`, `undefined`, a string, or a (finite, integer-valued) number.
Numeric cells are modelled with integer payloads; fractional values reach
the code only as strings through `parseFloat`, which returns rationals. -/
inductive JsValue where
  | null
  | undefined
  | str (s : String)
  | num (n : Int)
deriving DecidableEq

/-- Indexing a JS array: out-of-range reads yield `undefined`. -/
def jsIndex (row : List JsValue) (i : Nat) : JsValue :=
  (row.get? i).getD .undefined

/-- Numeric value of a digit character. -/
def natOfDigits (ds : List Char) : Nat :=
  ds.foldl (fun a c => a * 10 + (c.toNat - 48)) 0

/-- Whitespace test used when modelling JS string trimming. -/
def isJsSpace (c : Char) : Bool :=
  c = ' ' || c = '\t' || c = '\n' || c = '\r'

/-- Model of the JS builtin `parseFloat` on a string: skip leading
whitespace, then parse an optional sign followed by decimal digits with an
optional fractional part; `none` models the `NaN` result when no digits are
found.  (Exponent forms are outside the modelled fragment.) -/
def parseLeadingFloat (s : String) : Option ℚ :=
  let cs := s.data.dropWhile isJsSpace
  let sgn : ℚ := match cs with
    | '-' :: _ => -1
    | _ => 1
  let cs := match cs with
    | '-' :: rest => rest
    | '+' :: rest => rest
    | _ => cs
  let intDigits := cs.takeWhile Char.isDigit
  let rest := cs.dropWhile Char.isDigit
  let fracDigits := match rest with
    | '.' :: r2 => r2.takeWhile Char.isDigit
    | _ => []
  if intDigits.isEmpty && fracDigits.isEmpty then none
  else some (sgn * ((natOfDigits intDigits : ℚ) +
    (natOfDigits fracDigits : ℚ) / (10 : ℚ) ^ fracDigits.length))

/-- Model of the JS builtin `parseFloat` on an arbitrary value: numbers
parse to themselves, strings are parsed, `null`/`undefined` stringify to
non-numeric text and give `NaN` (`none`). -/
def jsParseFloat : JsValue → Option ℚ
  | .null => none
  | .undefined => none
  | .str s => parseLeadingFloat s
  | .num n => some (n : ℚ)

/-- Model of jQuery's `$.isNumeric` on a string: after trimming
whitespace, the whole string must be an optionally signed decimal number
with at least one digit. -/
def isNumericString (s : String) : Bool :=
  let cs := ((s.data.dropWhile isJsSpace).reverse.dropWhile isJsSpace).reverse
  let cs := match cs with
    | '-' :: rest => rest
    | '+' :: rest => rest
    | _ => cs
  let intDigits := cs.takeWhile Char.isDigit
  let rest := cs.dropWhile Char.isDigit
  match rest with
  | [] => !intDigits.isEmpty
  | '.' :: r2 =>
    (!intDigits.isEmpty || !(r2.takeWhile Char.isDigit).isEmpty) &&
      (r2.dropWhile Char.isDigit).isEmpty
  | _ => false

/-- Model of JS `toString` on a non-null cell value. -/
def JsValue.jsToString : JsValue → String
  | .null => "null"
  | .undefined => "undefined"
  | .str s => s
  | .num n => toString n

/-- The body of the `detectHeader` loop for one cell of row 0: the cell
makes the row "non-header-like" when it is neither `null` nor `undefined`
and its string form is non-empty and numeric (`$.isNumeric`). -/
def cellNumericLooking (v : JsValue) : Bool :=
  match v with
  | .null => false
  | .undefined => false
  | v =>
    let stringData := v.jsToString
    decide (stringData.length > 0) && isNumericString stringData

/-- Embedding of `DataBinder.prototype.detectHeader`: starting from
`hasHeader = true`, scan row 0 at columns `1 .. data[0].length - 1` and
clear the flag on any non-empty numeric-looking cell.  An empty matrix
makes the JS code read `data[0].length` off `undefined`, which throws
(`Except.error`). -/
def DataBinder.detectHeader (data : List (List JsValue)) : Except Unit Bool :=
  match data with
  | [] => .error ()
  | row0 :: _ =>
    .ok ((List.range' 1 (row0.length - 1)).foldl
      (fun hasHeader i =>
        if cellNumericLooking (jsIndex row0 i) then false else hasHeader) true)

/-- Restatement of the spec's header heuristic in its own words: row 0 is a
header iff no numeric-looking (non-empty) cell appears in row 0 at columns
`1 .. n`. -/
def specNoNumericTail (row0 : List JsValue) : Prop :=
  ∀ i, 1 ≤ i → i < row0.length → cellNumericLooking (jsIndex row0 i) = false

/-! ## Data convertor (`Trends.Data.DataConvertor`) -/

/-- One converted chart point: `originalIndex` is the row position within
the data rows, `formatted` the display cell, `unformatted` the
`parseFloat` result (a JS number; `none` would model `NaN`). -/
structure Point where
  originalIndex : Nat
  formatted : JsValue
  unformatted : Option ℚ
deriving DecidableEq

/-- One line series: a count of valid points plus the stored points. -/
structure LineSeries where
  validDataCount : Nat
  data : List Point
deriving DecidableEq

/-- The converted binding data; `yData = none` models the `null` series
array of the empty `BindingData`. -/
structure BindingData where
  header : List JsValue
  xData : List JsValue
  yData : Option (List LineSeries)
deriving DecidableEq

/-- The raw data handed to the convertor; `none` matrices model a missing
(`null`/`undefined`) `formatted` or `unformatted` field. -/
structure RawData where
  hasHeader : Bool
  formatted : Option (List (List JsValue))
  unformatted : Option (List (List JsValue))

/-- We can only render five lines at most (`Trends.MaxLineNumber`). -/
def MaxLineNumber : Nat := 5

/-- Maximal number of chart columns (`Trends.MaxColumnNumber`). -/
def MaxColumnNumber : Nat := 50

/-- Embedding of `DataConvertor.prototype.isDataValid`. -/
def DataConvertor.isDataValid (data : Option (List (List JsValue))) : Bool :=
  data.isSome

/-- The inner `j` loop body of `convert` for series `j` at data row
`idx`: parse `unformatted[i][j+1]`; on a non-`NaN` result count it and
push the point. -/
def seriesUpdate (frow urow : List JsValue) (idx j : Nat)
    (s : LineSeries) : LineSeries :=
  match jsParseFloat (jsIndex urow (j + 1)) with
  | some temp =>
    { validDataCount := s.validDataCount + 1
      data := s.data ++ [⟨idx, jsIndex frow (j + 1), some temp⟩] }
  | none => s

/-- Apply an index-dependent function to each list element, indices
starting at `j0`; this is the shape of the `for (j = 0; j < lineNumber;
j++)` loop over the series array. -/
def mapWithIndex (f : Nat → α → β) : Nat → List α → List β
  | _, [] => []
  | j, a :: rest => f j a :: mapWithIndex f (j + 1) rest

/-- One iteration of the outer `i` loop of `convert` over the series
array: the JS code reads `data.unformatted[i][j+1]` for each `j`, so a
missing unformatted row throws as soon as there is at least one series. -/
def rowStep (frow : List JsValue) (urow? : Option (List JsValue))
    (idx : Nat) (ys : List LineSeries) : Except Unit (List LineSeries) :=
  match ys, urow? with
  | [], _ => .ok []
  | _ :: _, none => .error ()
  | ys, some urow => .ok (mapWithIndex (fun j s => seriesUpdate frow urow idx j s) 0 ys)

/-- The outer `i` loop of `convert`: `frows` are the formatted rows still
to be visited (already restricted to `i < columnNumber` and past the
header row), `urows` the unformatted rows aligned with them, and `idx`
the running `i - columnNumberStartIndex`. -/
def rowsLoop : List (List JsValue) → List (List JsValue) → Nat →
    List JsValue → List LineSeries → Except Unit (List JsValue × List LineSeries)
  | [], _, _, xAcc, ys => .ok (xAcc, ys)
  | frow :: frest, urows, idx, xAcc, ys =>
    match rowStep frow urows.head? idx ys with
    | .error e => .error e
    | .ok ys2 => rowsLoop frest urows.tail (idx + 1) (xAcc ++ [jsIndex frow 0]) ys2

/-- The empty `BindingData` returned on missing input. -/
def emptyBindingData : BindingData := ⟨[], [], none⟩

/-- Embedding of `DataConvertor.prototype.convert`.  A `null`/`undefined`
matrix yields the empty `BindingData`; an empty `formatted` matrix makes
the JS code read `data.formatted[0].length` off `undefined`, which throws. -/
def DataConvertor.convert (d : RawData) : Except Unit BindingData :=
  match d.formatted, d.unformatted with
  | some fmt, some ufmt =>
    match fmt with
    | [] => .error ()
    | row0 :: _ =>
      let lineNumber := min (row0.length - 1) MaxLineNumber
      let header := if d.hasHeader
        then (List.range lineNumber).map (fun i => jsIndex row0 (i + 1))
        else []
      let ys0 : List LineSeries := (List.range lineNumber).map (fun _ => ⟨0, []⟩)
      let columnNumber := min fmt.length MaxColumnNumber
      let start := if d.hasHeader then 1 else 0
      match rowsLoop ((fmt.take columnNumber).drop start) (ufmt.drop start) 0 [] ys0 with
      | .error e => .error e
      | .ok (x, ys) => .ok ⟨header, x, some ys⟩
  | _, _ => .ok emptyBindingData

/-- Invariant carried by each series while the outer `convert` loop runs:
the valid-point counter equals the number of stored points, every stored
point holds a successfully parsed (non-`NaN`) number, the original indices
are strictly increasing, and all of them are below the next row index. -/
def seriesInv (idx : Nat) (s : LineSeries) : Prop :=
  s.validDataCount = s.data.length ∧
  (∀ p ∈ s.data, p.unformatted.isSome = true) ∧
  List.Pairwise (fun a b => a.originalIndex < b.originalIndex) s.data ∧
  (∀ p ∈ s.data, p.originalIndex < idx)

/-! ## y-domain computation (`LineChartPlotter.setMaxAndMin`) -/

/-- JS `Math.max` on numbers where `none` models `NaN` (which propagates). -/
def jsMax : Option ℚ → Option ℚ → Option ℚ
  | some a, some b => some (max a b)
  | _, _ => none

/-- JS `Math.min` on numbers where `none` models `NaN`. -/
def jsMin : Option ℚ → Option ℚ → Option ℚ
  | some a, some b => some (min a b)
  | _, _ => none

/-- JS strict equality on numbers: `NaN === NaN` is false. -/
def jsNumEq : Option ℚ → Option ℚ → Bool
  | some a, some b => decide (a = b)
  | _, _ => false

/-- JS `x > 0` on a number; false for `NaN`. -/
def jsGtZero : Option ℚ → Bool
  | some a => decide (0 < a)
  | none => false

/-- JS `x < 0` on a number; false for `NaN`. -/
def jsLtZero : Option ℚ → Bool
  | some a => decide (a < 0)
  | none => false

/-- Scan state of `setMaxAndMin`: `(isFirstNumber, this.max, this.min)`. -/
abbrev MMState := Bool × Option ℚ × Option ℚ

/-- Body of the inner loop of `setMaxAndMin` for one point value `temp`:
on the first number both bounds are seeded with `temp`, then
`Math.max`/`Math.min` are applied. -/
def stepPoint (st : MMState) (p : Point) : MMState :=
  let temp := p.unformatted
  match st with
  | (first, mx, mn) =>
    let mx2 := if first then temp else mx
    let mn2 := if first then temp else mn
    (false, jsMax mx2 temp, jsMin mn2 temp)

/-- The inner `j < validDataCount` loop of `setMaxAndMin`; reading
`data[j]` past the end of the stored points dereferences `undefined` and
throws. -/
def pointsLoop : List Point → Nat → MMState → Except Unit MMState
  | _, 0, st => .ok st
  | [], _ + 1, _ => .error ()
  | p :: rest, n + 1, st => pointsLoop rest n (stepPoint st p)

/-- The outer `i < lineNumber` loop of `setMaxAndMin` over the series. -/
def seriesScan : List LineSeries → MMState → Except Unit MMState
  | [], st => .ok st
  | s :: rest, st =>
    match pointsLoop s.data s.validDataCount st with
    | .error e => .error e
    | .ok st2 => seriesScan rest st2

/-- Embedding of `LineChartPlotter.prototype.setMaxAndMin`, returning the
final `(this.min, this.max)` pair.  The JS guard
`isFirstNumber || this.max === null || ... undefined` collapses to the
`isFirstNumber` flag: once any assignment has happened the fields are
numbers (possibly `NaN`), never `null`/`undefined`. -/
def LineChartPlotter.setMaxAndMin (ys : List LineSeries) :
    Except Unit (Option ℚ × Option ℚ) :=
  match seriesScan ys (true, none, none) with
  | .error e => .error e
  | .ok (first, mx, mn) =>
    if first then .ok (some 0, some 1)
    else if jsNumEq mn mx then
      if jsGtZero mn then .ok (some 0, mx)
      else if jsLtZero mn then .ok (mn, some 0)
      else .ok (some (-1), mx)
    else .ok (mn, mx)

/-- Non-`NaN` bounded-state invariant of the `setMaxAndMin` scan: either
no number has been seen yet, or both bounds are real numbers with
`min ≤ max`. -/
def mmInv (st : MMState) : Prop :=
  st = (true, none, none) ∨
    ∃ a b : ℚ, st = (false, some a, some b) ∧ b ≤ a

/-! ## Percentage format detection (`LineChartPlotter.isPercentageFormat`) -/

/-- Whether a string contains a `"%"` character, i.e. the JS test
`s.lastIndexOf("%") !== -1`. -/
def strHasPercent (s : String) : Bool :=
  s.data.any (fun c => c == '%')

/-- The test `formatted.lastIndexOf("%") !== -1` on a cell: defined for
strings; on `null`/`undefined`/number cells the JS method call throws. -/
def jsLastIndexOfPercent : JsValue → Except Unit Bool
  | .str s => .ok (strHasPercent s)
  | _ => .error ()

/-- The inner `j < validDataCount` counting loop of `isPercentageFormat`;
reading `data[j].formatted` past the stored points throws. -/
def percentCountLoop : List Point → Nat → Nat → Except Unit Nat
  | _, 0, count => .ok count
  | [], _ + 1, _ => .error ()
  | p :: rest, n + 1, count =>
    match jsLastIndexOfPercent p.formatted with
    | .error e => .error e
    | .ok b => percentCountLoop rest n (if b then count + 1 else count)

/-- Embedding of `LineChartPlotter.prototype.isPercentageFormat`: for each
line, count the formatted values containing `"%"` among the first
`validDataCount` points; return false as soon as `count < j / 2` (with `j`
equal to `validDataCount` after the loop) or `count === 0`; true when
every line passes. -/
def LineChartPlotter.isPercentageFormat : List LineSeries → Except Unit Bool
  | [] => .ok true
  | s :: rest =>
    match percentCountLoop s.data s.validDataCount 0 with
    | .error e => .error e
    | .ok count =>
      if (count : ℚ) < (s.validDataCount : ℚ) / 2 ∨ count = 0 then .ok false
      else LineChartPlotter.isPercentageFormat rest

/-- Percent test on a single point's formatted value, as a Bool. -/
def pointHasPercent (p : Point) : Bool :=
  match p.formatted with
  | .str s => strHasPercent s
  | _ => false

/-- Number of percent-formatted values among a line's counted points. -/
def percentCount (s : LineSeries) : Nat :=
  ((s.data.take s.validDataCount).filter (fun p => pointHasPercent p)).length

/-- Restatement of the spec's condition in its own words: for the lines
considered, a supermajority — strictly more than half, and not zero — of
the line's formatted values contain a `"%"` sign. -/
def specSupermajorityPercent (ys : List LineSeries) : Prop :=
  ∀ s ∈ ys, 2 * percentCount s > s.validDataCount ∧ percentCount s ≠ 0

/-! ## Configuration store, persistence adapter and debounced writes
(`DataViz.Config.Configuration`, `Trends.Configurator`,
`DataViz.Config.Trends` reset helpers) -/

/-- A configuration value: the app stores strings, numbers, booleans and
arrays thereof (numeric config payloads are integers here, matching the
line indices the app stores). -/
inductive Value where
  | num (n : Int)
  | str (s : String)
  | bool (b : Bool)
  | numList (l : List Int)
  | boolList (l : List Bool)
  | strList (l : List String)
deriving DecidableEq

/-- Length of an array-valued configuration value (0 for scalars). -/
def valueLength : Value → Nat
  | .numList l => l.length
  | .boolList l => l.length
  | .strList l => l.length
  | _ => 0

/-- A registered configuration-change listener: the persistence adapter
(`Trends.Configurator`, which saves to host storage) or some other
observer (providers, controller, ...), modelled as a pure receiver. -/
inductive Listener where
  | adapter
  | observer (id : Nat)
deriving DecidableEq

/-- Observable effects of a configuration mutation: a listener invocation
(`onConfigurationChanged`) or a write-through to host storage
(`Office settings.set` + `saveAsync` inside `Configurator.save`). -/
inductive Event where
  | notify (l : Listener) (key : String) (v : Value)
  | persist (key : String) (v : Value)
deriving DecidableEq

/-- Test for a persistence event. -/
def Event.isPersist : Event → Bool
  | .persist _ _ => true
  | _ => false

/-- Test for a listener-notification event. -/
def Event.isNotify : Event → Bool
  | .notify _ _ _ => true
  | _ => false

/-- A pending `setTimeout` callback created by `delaySet`. -/
structure Timer where
  id : Nat
  key : String
  value : Value
deriving DecidableEq

/-- Combined state of the configuration store, the persistence adapter and
the pending debounce timers. -/
structure SysState where
  keys : List String
  settings : List (String × Value)
  listeners : List Listener
  reentryFlag : Bool
  hostAvailable : Bool
  hostSettings : List (String × Value)
  timers : List Timer
  timeOutIDs : List (String × Nat)
  nextId : Nat
deriving DecidableEq

/-- Read a JS object used as a map: first (most recent) entry wins. -/
def lookupKV (m : List (String × α)) (k : String) : Option α :=
  (m.find? (fun p => p.1 == k)).map (fun p => p.2)

/-- Assign into a JS object used as a map. -/
def setKV (m : List (String × α)) (k : String) (v : α) : List (String × α) :=
  (k, v) :: m

/-- Assign `null` into a JS object used as a map (observationally a
removal: the code only tests the entry for truthiness). -/
def removeKV (m : List (String × α)) (k : String) : List (String × α) :=
  m.filter (fun p => p.1 != k)

/-- Deliver one `onConfigurationChanged` callback.  The adapter
(`Trends.Configurator.onConfigurationChanged`) persists the pair to host
storage unless its re-entrancy flag is set or host settings are absent;
other listeners only observe. -/
def notifyOne (st : SysState) (l : Listener) (key : String) (v : Value) :
    SysState × List Event :=
  match l with
  | .adapter =>
    if st.reentryFlag then (st, [.notify l key v])
    else if st.hostAvailable then
      ({ st with hostSettings := setKV st.hostSettings key v },
        [.notify l key v, .persist key v])
    else (st, [.notify l key v])
  | .observer _ => (st, [.notify l key v])

/-- Deliver `onConfigurationChanged` to every listener in registration
order (`changeListeners.forEach`). -/
def notifyAll : List Listener → SysState → String → Value → SysState × List Event
  | [], st, _, _ => (st, [])
  | l :: rest, st, key, v =>
    let r1 := notifyOne st l key v
    let r2 := notifyAll rest r1.1 key v
    (r2.1, r1.2 ++ r2.2)

/-- Embedding of `Configuration.prototype.set`: store the value, then (by
default) notify every registered listener. -/
def Configuration.set (st : SysState) (key : String) (v : Value)
    (notifyListeners : Bool) : SysState × List Event :=
  let st1 := { st with settings := setKV st.settings key v }
  if notifyListeners then notifyAll st1.listeners st1 key v
  else (st1, [])

/-- Embedding of `Configuration.prototype.delaySet`: clear any pending
timer for the key, then schedule a fresh timer holding the value.  Timer
ids are positive, as browser `setTimeout` ids are, so the JS truthiness
test on `delaySetTimeOutIDs[key]` is modelled by map presence. -/
def Configuration.delaySet (st : SysState) (key : String) (v : Value) : SysState :=
  let st1 :=
    match lookupKV st.timeOutIDs key with
    | some tid => { st with timers := st.timers.filter (fun t => t.id != tid) }
    | none => st
  let newId := st1.nextId + 1
  { st1 with
    timers := st1.timers ++ [⟨newId, key, v⟩]
    timeOutIDs := setKV st1.timeOutIDs key newId
    nextId := newId }

/-- A scheduled `delaySet` timer elapses: if it is still pending, it is
consumed, `set(key, value)` runs with notification, and
`delaySetTimeOutIDs[key]` is nulled. -/
def fireTimer (st : SysState) (tid : Nat) : SysState × List Event :=
  match st.timers.find? (fun t => t.id == tid) with
  | none => (st, [])
  | some t =>
    let st1 := { st with timers := st.timers.filter (fun t2 => t2.id != tid) }
    let r := Configuration.set st1 t.key t.value true
    ({ r.1 with timeOutIDs := removeKV r.1.timeOutIDs t.key }, r.2)

/-- The inner loop body of `Configurator.prototype.loadAll` over the
recognized keys: non-null host values are written through
`configuration.set(key, value)` (with its default `notifyListeners`). -/
def loadAllKeys : List String → SysState → SysState × List Event
  | [], st => (st, [])
  | key :: rest, st =>
    match lookupKV st.hostSettings key with
    | some v =>
      let r1 := Configuration.set st key v true
      let r2 := loadAllKeys rest r1.1
      (r2.1, r1.2 ++ r2.2)
    | none => loadAllKeys rest st

/-- Embedding of `Trends.Configurator.prototype.loadAll`: no-op without
host settings; otherwise clear the configuration, raise the re-entrancy
flag, bulk-load every recognized key, and lower the flag. -/
def Configurator.loadAll (st : SysState) : SysState × List Event :=
  if !st.hostAvailable then (st, [])
  else
    let st1 := { st with settings := [], reentryFlag := true }
    let r := loadAllKeys st1.keys st1
    ({ r.1 with reentryFlag := false }, r.2)

/-- The well-known configuration key `clicked-pointid-array`. -/
def wellKnownKeys.clickedPointIdArray : String := "clicked-pointid-array"

/-- The well-known configuration key `line-order`. -/
def wellKnownKeys.lineOrder : String := "line-order"

/-- The well-known configuration key `line-display`. -/
def wellKnownKeys.lineDisplay : String := "line-display"

/-- The well-known configuration key `line-title-array`. -/
def wellKnownKeys.lineTitleArray : String := "line-title-array"

/-- The well-known configuration key `is-legend-edited`. -/
def wellKnownKeys.isLegendEdited : String := "is-legend-edited"

/-- Model of the localized default legend label
`stringFormat(Resources.UI.defaultLegendName, i + 1)`; the resource text
is external to the scripts file and only the produced array's length
matters to the claims. -/
def defaultLegendTitle (i : Nat) : String :=
  "Series " ++ toString i

/-- Embedding of `Trends.resetClickedPointIdArrays`: store an empty id
array. -/
def resetClickedPointIdArrays (st : SysState) : SysState × List Event :=
  Configuration.set st wellKnownKeys.clickedPointIdArray (.strList []) true

/-- Embedding of `Trends.resetLineOrder`: store `[0, ..., MaxLineNumber-1]`
(always `MaxLineNumber` entries). -/
def resetLineOrder (st : SysState) : SysState × List Event :=
  Configuration.set st wellKnownKeys.lineOrder
    (.numList ((List.range MaxLineNumber).map (fun i => (i : Int)))) true

/-- Embedding of `Trends.resetLineDisplay`: store `MaxLineNumber` copies
of `true`. -/
def resetLineDisplay (st : SysState) : SysState × List Event :=
  Configuration.set st wellKnownKeys.lineDisplay
    (.boolList ((List.range MaxLineNumber).map (fun _ => true))) true

/-- Embedding of `Trends.resetLineTitleArray`: store `MaxLineNumber`
default titles, then clear the `is-legend-edited` flag. -/
def resetLineTitleArray (st : SysState) : SysState × List Event :=
  let r1 := Configuration.set st wellKnownKeys.lineTitleArray
    (.strList ((List.range MaxLineNumber).map (fun i => defaultLegendTitle (i + 1)))) true
  let r2 := Configuration.set r1.1 wellKnownKeys.isLegendEdited (.bool false) true
  (r2.1, r1.2 ++ r2.2)

/-- Embedding of `LineChartPlotter.prototype.onDataChanged`: with both old
and new binding data present, a column-count change resets the pinned
points, and a line-count change additionally resets line order, line
display and line titles.  Reading `.length` off a `null` series array
throws. -/
def LineChartPlotter.onDataChanged (bindingData newData : Option BindingData)
    (st : SysState) : Except Unit (SysState × List Event) :=
  match bindingData, newData with
  | none, _ => .ok (st, [])
  | _, none => .ok (st, [])
  | some bd, some nd =>
    let r1 :=
      if nd.xData.length ≠ bd.xData.length then resetClickedPointIdArrays st
      else (st, [])
    match nd.yData, bd.yData with
    | some ndy, some bdy =>
      if ndy.length ≠ bdy.length then
        let r2 := resetClickedPointIdArrays r1.1
        let r3 := resetLineOrder r2.1
        let r4 := resetLineDisplay r3.1
        let r5 := resetLineTitleArray r4.1
        .ok (r5.1, r1.2 ++ r2.2 ++ r3.2 ++ r4.2 ++ r5.2)
      else .ok (r1.1, r1.2)
    | _, _ => .error ()

/-- An empty system state used for concrete scenarios. -/
def stEmpty : SysState := ⟨[], [], [], false, false, [], [], [], 0⟩

/-- All components of the state except the host-settings blob, which is
the only field listener notification can change. -/
def SysState.cfgCore (st : SysState) :=
  (st.keys, st.settings, st.listeners, st.reentryFlag, st.hostAvailable,
    st.timers, st.timeOutIDs, st.nextId)

/-- A concrete state for the `loadAll` scenarios: one recognized key
present in host storage and one non-adapter listener registered. -/
def stC3 : SysState :=
  ⟨["title"], [], [.observer 0], false, true, [("title", .str "t")], [], [], 0⟩

/-- A concrete state for the debounce scenario: a single adapter listener,
host storage available, no pending timers. -/
def stC5 : SysState := ⟨[], [], [.adapter], false, true, [], [], [], 0⟩

/-! ## Theme provider (`DataViz.Decoration.ThemeProvider`) -/

/-- A theme catalog entry; only the fields the lookups use. -/
structure Theme where
  id : String
  css : String
deriving DecidableEq

/-- The `Themes` getter: the not-null precondition check throws when the
catalog has not been loaded (`definitions = none`). -/
def ThemeProvider.Themes (definitions : Option (List Theme)) :
    Except Unit (List Theme) :=
  match definitions with
  | none => .error ()
  | some l => .ok l

/-- Embedding of `ThemeProvider.prototype.getThemeById`: filter the loaded
catalog by id and return the first match, or `null` (`none`) if there is
none. -/
def ThemeProvider.getThemeById (definitions : Option (List Theme))
    (id : String) : Except Unit (Option Theme) :=
  match ThemeProvider.Themes definitions with
  | .error e => .error e
  | .ok themes =>
    let matched := themes.filter (fun t => t.id == id)
    .ok (if matched.length > 0 then matched.head? else none)

/-- The `Default` getter: `Themes[0]`, which is `undefined` (`none`) on an
empty catalog rather than an error. -/
def ThemeProvider.Default (definitions : Option (List Theme)) :
    Except Unit (Option Theme) :=
  match ThemeProvider.Themes definitions with
  | .error e => .error e
  | .ok themes => .ok themes.head?

/-- Embedding of the `CurrentTheme` getter: `getThemeById(currentThemeId)`
with fallback to `Default` when the lookup yields `null`. -/
def ThemeProvider.CurrentTheme (definitions : Option (List Theme))
    (currentThemeId : String) : Except Unit (Option Theme) :=
  match ThemeProvider.getThemeById definitions currentThemeId with
  | .error e => .error e
  | .ok (some theme) => .ok (some theme)
  | .ok none => ThemeProvider.Default definitions

/-! ## Split-pane resize (`Trends.Chart.Layouter.onElementResize`) -/

/-- Embedding of `Layouter.prototype.onElementResize`.  Inputs are the
body content width (`Body.width() - deviationWidth`), the dragged
element's computed minimum width, the first peer's minimum width, the
second peer's current outer width (0 when absent), the dragged element's
non-content-plus-border width, and the raw dragged/original widths from
the resize event.  The result is `(actualPeerElement1Width,
elementWidth)` as passed to `setWidth`, or `none` for the early return
when the element is already at its minimum and shrinking. -/
def Layouter.onElementResize (bodyWidthNoPadding ElementMinWidth
    peerElement1MinWidth peerElement2Width nonContentAndBorder
    elementWidth0 elementOriginWidth0 : ℚ) : Option (ℚ × ℚ) :=
  let elementWidth := elementWidth0 + nonContentAndBorder
  let elementOriginWidth := elementOriginWidth0 + nonContentAndBorder
  if elementWidth > elementOriginWidth then
    let maxWidth := bodyWidthNoPadding - peerElement1MinWidth - peerElement2Width
    let ew := if elementWidth < maxWidth then elementWidth else maxWidth
    some (bodyWidthNoPadding - ew - peerElement2Width, ew)
  else
    if elementOriginWidth = ElementMinWidth then none
    else
      let ew := if elementWidth > ElementMinWidth then elementWidth else ElementMinWidth
      some (bodyWidthNoPadding - ew - peerElement2Width, ew)

theorem foldl_and_not_eq {p : Nat → Bool} (l : List Nat) (acc : Bool) :
    l.foldl (fun hasHeader i => if p i then false else hasHeader) acc =
      (acc && l.all (fun i => !p i)) := by
  induction l generalizing acc with
  | nil => simp
  | cons head tail ih =>
    simp only [List.foldl_cons, List.all_cons, ih]
    cases h : p head <;> simp [h]

theorem detectHeader_cons (row0 : List JsValue) (rest : List (List JsValue)) :
    DataBinder.detectHeader (row0 :: rest) =
      .ok ((List.range' 1 (row0.length - 1)).foldl
        (fun hasHeader i =>
          if cellNumericLooking (jsIndex row0 i) then false else hasHeader) true) := rfl

example : DataBinder.detectHeader [[.str "Time", .str "A", .str "B"]] = .ok true := by rfl

example : DataBinder.detectHeader [[.str "Time", .num 3, .str "B"]] = .ok false := by rfl

example : DataBinder.detectHeader [[.num 3, .str "A"]] = .ok true := by rfl

example : DataBinder.detectHeader [[.str "x", .str "4.5"]] = .ok false := by rfl

example : DataBinder.detectHeader [] = .error () := by rfl

/-- C6: for every non-empty data matrix, `DataBinder.detectHeader` returns
`true` (row 0 is a header) iff no cell of row 0 at columns `1..n` is a
non-empty numeric-looking value. -/
theorem detectHeader_iff_no_numeric_tail (row0 : List JsValue)
    (rest : List (List JsValue)) :
    DataBinder.detectHeader (row0 :: rest) = .ok true ↔ specNoNumericTail row0 := by
  unfold specNoNumericTail
  rw [detectHeader_cons, foldl_and_not_eq]
  simp only [Bool.true_and, Except.ok.injEq, List.all_eq_true, List.mem_range'_1,
    Bool.not_eq_true', and_imp]
  constructor
  · intro h i h1 h2
    exact h i h1 (by omega)
  · intro h i h1 h2
    exact h i h1 (by omega)

theorem length_mapWithIndex (f : Nat → α → β) :
    ∀ (j : Nat) (l : List α), (mapWithIndex f j l).length = l.length := by
  intro j l
  induction l generalizing j with
  | nil => rfl
  | cons a rest ih => simp [mapWithIndex, ih]

theorem forall_mem_mapWithIndex {f : Nat → α → β} {P : β → Prop} :
    ∀ (j : Nat) (l : List α), (∀ i a, a ∈ l → P (f i a)) →
      ∀ b ∈ mapWithIndex f j l, P b := by
  intro j l
  induction l generalizing j with
  | nil => intro _ b hb; cases hb
  | cons a rest ih =>
    intro h b hb
    rcases hb with _ | ⟨_, hb⟩
    · exact h j a (List.mem_cons_self a rest)
    · exact ih (j + 1) (fun i a2 ha2 => h i a2 (List.mem_cons_of_mem a ha2)) b hb

example :
    DataConvertor.convert
      ⟨true, some [[.str "Time", .str "A", .str "B"],
                   [.str "Jan", .str "10", .str "20"],
                   [.str "Feb", .str "30", .str "40"]],
             some [[.num 0, .num 10, .num 20],
                   [.num 1, .num 10, .num 20],
                   [.num 2, .num 30, .num 40]]⟩ =
    .ok ⟨[.str "A", .str "B"], [.str "Jan", .str "Feb"],
         some [⟨2, [⟨0, .str "10", some 10⟩, ⟨1, .str "30", some 30⟩]⟩,
               ⟨2, [⟨0, .str "20", some 20⟩, ⟨1, .str "40", some 40⟩]⟩]⟩ := by
  rfl

example : DataConvertor.convert ⟨false, none, some []⟩ = .ok emptyBindingData := by rfl

example : DataConvertor.convert ⟨false, some [], some []⟩ = .error () := by rfl

example : DataConvertor.convert ⟨false, some [[.str "a", .str "1"]], some []⟩ = .error () := by
  rfl

theorem rowStep_ok_length {frow : List JsValue} {urow? : Option (List JsValue)}
    {idx : Nat} {ys ys2 : List LineSeries}
    (h : rowStep frow urow? idx ys = .ok ys2) : ys2.length = ys.length := by
  cases ys with
  | nil => cases urow? <;> simp [rowStep] at h <;> simp [← h]
  | cons s rest =>
    cases urow? with
    | none => simp [rowStep] at h
    | some urow =>
      simp only [rowStep, Except.ok.injEq] at h
      simp [← h, length_mapWithIndex]

theorem rowsLoop_ok_lengths :
    ∀ (frows urows : List (List JsValue)) (idx : Nat) (xAcc : List JsValue)
      (ys : List LineSeries) (x : List JsValue) (ys2 : List LineSeries),
      rowsLoop frows urows idx xAcc ys = .ok (x, ys2) →
      ys2.length = ys.length ∧ x.length = xAcc.length + frows.length := by
  intro frows
  induction frows with
  | nil =>
    intro urows idx xAcc ys x ys2 h
    simp only [rowsLoop, Except.ok.injEq, Prod.mk.injEq] at h
    simp [← h.1, ← h.2]
  | cons frow frest ih =>
    intro urows idx xAcc ys x ys2 h
    simp only [rowsLoop] at h
    cases hs : rowStep frow urows.head? idx ys with
    | error e => rw [hs] at h; exact absurd h (by simp)
    | ok ysMid =>
      rw [hs] at h
      have h2 := ih urows.tail (idx + 1) (xAcc ++ [jsIndex frow 0]) ysMid x ys2 h
      have h3 := rowStep_ok_length hs
      simp only [List.length_append, List.length_singleton, List.length_cons,
        List.length_nil] at h2 ⊢
      omega

theorem rowsLoop_total :
    ∀ (frows urows : List (List JsValue)) (idx : Nat) (xAcc : List JsValue)
      (ys : List LineSeries), frows.length ≤ urows.length →
      ∃ r, rowsLoop frows urows idx xAcc ys = .ok r := by
  intro frows
  induction frows with
  | nil => intro urows idx xAcc ys _; exact ⟨(xAcc, ys), rfl⟩
  | cons frow frest ih =>
    intro urows idx xAcc ys hlen
    cases urows with
    | nil => simp at hlen
    | cons urow urest =>
      have hstep : ∃ ys2, rowStep frow (urow :: urest).head? idx ys = .ok ys2 := by
        cases ys with
        | nil => exact ⟨[], rfl⟩
        | cons s rest => exact ⟨_, rfl⟩
      obtain ⟨ys2, hys2⟩ := hstep
      obtain ⟨r, hr⟩ := ih urest (idx + 1) (xAcc ++ [jsIndex frow 0]) ys2
        (by simpa using Nat.le_of_succ_le_succ hlen)
      exact ⟨r, by simp only [rowsLoop, hys2]; exact hr⟩

theorem convert_ok_bounds {d : RawData} {bd : BindingData}
    (h : DataConvertor.convert d = .ok bd) :
    bd.xData.length ≤ MaxColumnNumber ∧
      ∀ ys, bd.yData = some ys → ys.length ≤ MaxLineNumber := by
  unfold DataConvertor.convert at h
  cases hf : d.formatted with
  | none =>
    rw [hf] at h
    cases hu : d.unformatted <;> rw [hu] at h <;>
      simp only [Except.ok.injEq] at h <;> simp [← h, emptyBindingData, MaxColumnNumber]
  | some fmt =>
    rw [hf] at h
    cases hu : d.unformatted with
    | none =>
      rw [hu] at h
      simp only [Except.ok.injEq] at h
      simp [← h, emptyBindingData, MaxColumnNumber]
    | some ufmt =>
      rw [hu] at h
      cases fmt with
      | nil => exact absurd h (by simp)
      | cons row0 frest =>
        simp only at h
        set lineNumber := min (row0.length - 1) MaxLineNumber with hln
        set columnNumber := min (row0 :: frest).length MaxColumnNumber with hcn
        set start := if d.hasHeader then 1 else 0 with hst
        cases hr : rowsLoop (((row0 :: frest).take columnNumber).drop start)
            (ufmt.drop start) 0 [] ((List.range lineNumber).map (fun _ => ⟨0, []⟩)) with
        | error e => rw [hr] at h; exact absurd h (by simp)
        | ok r =>
          obtain ⟨x, ys⟩ := r
          rw [hr] at h
          simp only [Except.ok.injEq] at h
          obtain ⟨hylen, hxlen⟩ := rowsLoop_ok_lengths _ _ _ _ _ _ _ hr
          constructor
          · rw [← h]
            simp only [List.length_nil, Nat.zero_add, List.length_drop,
              List.length_take] at hxlen ⊢
            have : columnNumber ≤ MaxColumnNumber := Nat.min_le_right _ _
            omega
          · intro ys2 hys2
            rw [← h] at hys2
            simp only [Option.some.injEq] at hys2
            rw [← hys2]
            simp only [List.length_map, List.length_range] at hylen
            rw [hylen]
            exact Nat.min_le_right _ _

/-- C2 (amended): `DataConvertor.convert` returns the empty `BindingData`
when `formatted` or `unformatted` is missing (`null`/`undefined`); whenever
it returns at all, its output satisfies `yData.length ≤ MaxLineNumber` (5)
and `xData.length ≤ MaxColumnNumber` (50); and it never throws provided
`formatted` is non-empty and `unformatted` has at least
`min formatted.length MaxColumnNumber` rows.  (As stated the claim is
false: `convert` throws on an empty `formatted` matrix, see the
counterexample.) -/
theorem convert_safety (d : RawData) :
    ((d.formatted = none ∨ d.unformatted = none) →
      DataConvertor.convert d = .ok emptyBindingData) ∧
    (∀ bd, DataConvertor.convert d = .ok bd →
      bd.xData.length ≤ MaxColumnNumber ∧
        ∀ ys, bd.yData = some ys → ys.length ≤ MaxLineNumber) ∧
    (∀ fmt ufmt, d.formatted = some fmt → d.unformatted = some ufmt →
      fmt ≠ [] → min fmt.length MaxColumnNumber ≤ ufmt.length →
      ∃ bd, DataConvertor.convert d = .ok bd) := by
  refine ⟨?_, fun bd h => convert_ok_bounds h, ?_⟩
  · intro hmiss
    unfold DataConvertor.convert
    cases hf : d.formatted with
    | none => rfl
    | some fmt =>
      cases hu : d.unformatted with
      | none => rfl
      | some ufmt =>
        rcases hmiss with hm | hm
        · rw [hf] at hm; cases hm
        · rw [hu] at hm; cases hm
  · intro fmt ufmt hf hu hne hlen
    unfold DataConvertor.convert
    rw [hf, hu]
    cases fmt with
    | nil => exact absurd rfl hne
    | cons row0 frest =>
      simp only
      set lineNumber := min (row0.length - 1) MaxLineNumber with hln
      set columnNumber := min (row0 :: frest).length MaxColumnNumber with hcn
      set start := if d.hasHeader then 1 else 0 with hst
      have htot : (((row0 :: frest).take columnNumber).drop start).length ≤
          (ufmt.drop start).length := by
        simp only [List.length_drop, List.length_take]
        have h1 : columnNumber ≤ (row0 :: frest).length := Nat.min_le_left _ _
        have h2 : columnNumber ≤ ufmt.length := hlen
        omega
      obtain ⟨r, hr⟩ := rowsLoop_total _ _ 0 []
        ((List.range lineNumber).map (fun _ => ⟨0, []⟩)) htot
      rw [hr]
      exact ⟨_, rfl⟩

/-- Witness for C2's amended theorem at concrete inputs. -/
theorem convert_safety_witness :
    (∃ bd, DataConvertor.convert
      ⟨false, some [[.str "a", .str "1"]], some [[.num 0, .num 1]]⟩ = .ok bd) ∧
    DataConvertor.convert ⟨false, none, some []⟩ = .ok emptyBindingData := by
  constructor
  · exact (convert_safety ⟨false, some [[.str "a", .str "1"]],
      some [[.num 0, .num 1]]⟩).2.2 _ _ rfl rfl (by simp) (by simp [MaxColumnNumber])
  · exact (convert_safety ⟨false, none, some []⟩).1 (Or.inl rfl)

/-- C2 counterexample: the claim as stated says `convert` never throws for
any input, but an empty `formatted` matrix makes the JS code dereference
`data.formatted[0].length` on `undefined`, which throws a `TypeError`. -/
theorem convert_throws_on_empty_formatted :
    DataConvertor.convert ⟨false, some [], some []⟩ = .error () := by rfl

theorem seriesUpdate_inv {frow urow : List JsValue} {idx j : Nat}
    {s : LineSeries} (h : seriesInv idx s) :
    seriesInv (idx + 1) (seriesUpdate frow urow idx j s) := by
  obtain ⟨h1, h2, h3, h4⟩ := h
  unfold seriesUpdate
  cases hp : jsParseFloat (jsIndex urow (j + 1)) with
  | none => exact ⟨h1, h2, h3, fun p hp2 => Nat.lt_succ_of_lt (h4 p hp2)⟩
  | some temp =>
    refine ⟨by simp [h1], ?_, ?_, ?_⟩
    · intro p hp2
      rcases List.mem_append.mp hp2 with hmem | hmem
      · exact h2 p hmem
      · simp only [List.mem_singleton] at hmem
        subst hmem
        rfl
    · rw [List.pairwise_append]
      refine ⟨h3, List.pairwise_singleton _ _, ?_⟩
      intro a ha b hb
      simp only [List.mem_singleton] at hb
      subst hb
      exact h4 a ha
    · intro p hp2
      rcases List.mem_append.mp hp2 with hmem | hmem
      · exact Nat.lt_succ_of_lt (h4 p hmem)
      · simp only [List.mem_singleton] at hmem
        subst hmem
        exact Nat.lt_succ_self idx

theorem rowStep_inv {frow : List JsValue} {urow? : Option (List JsValue)}
    {idx : Nat} {ys ys2 : List LineSeries}
    (h : rowStep frow urow? idx ys = .ok ys2)
    (hinv : ∀ s ∈ ys, seriesInv idx s) :
    ∀ s ∈ ys2, seriesInv (idx + 1) s := by
  cases ys with
  | nil =>
    cases urow? <;> simp only [rowStep, Except.ok.injEq] at h <;>
      (subst h; intro s hs; cases hs)
  | cons s0 rest =>
    cases urow? with
    | none => simp [rowStep] at h
    | some urow =>
      simp only [rowStep, Except.ok.injEq] at h
      subst h
      exact forall_mem_mapWithIndex 0 (s0 :: rest)
        (fun i a ha => seriesUpdate_inv (hinv a ha))

theorem rowsLoop_inv :
    ∀ (frows urows : List (List JsValue)) (idx : Nat) (xAcc : List JsValue)
      (ys : List LineSeries) (x : List JsValue) (ys2 : List LineSeries),
      rowsLoop frows urows idx xAcc ys = .ok (x, ys2) →
      (∀ s ∈ ys, seriesInv idx s) → ∃ m, ∀ s ∈ ys2, seriesInv m s := by
  intro frows
  induction frows with
  | nil =>
    intro urows idx xAcc ys x ys2 h hinv
    simp only [rowsLoop, Except.ok.injEq, Prod.mk.injEq] at h
    exact ⟨idx, h.2 ▸ hinv⟩
  | cons frow frest ih =>
    intro urows idx xAcc ys x ys2 h hinv
    simp only [rowsLoop] at h
    cases hs : rowStep frow urows.head? idx ys with
    | error e => rw [hs] at h; exact absurd h (by simp)
    | ok ysMid =>
      rw [hs] at h
      exact ih urows.tail (idx + 1) (xAcc ++ [jsIndex frow 0]) ysMid x ys2 h
        (rowStep_inv hs hinv)

/-- C10: whenever `DataConvertor.convert` succeeds with a non-null series
array, every output series has `validDataCount` equal to the number of
stored points, every stored point's `unformatted` value is a successfully
parsed number (never `NaN`), and the points' `originalIndex` values are
strictly increasing within the series. -/
theorem convert_output_invariants (d : RawData) (bd : BindingData)
    (ys : List LineSeries) (hok : DataConvertor.convert d = .ok bd)
    (hy : bd.yData = some ys) :
    ∀ s ∈ ys, s.validDataCount = s.data.length ∧
      (∀ p ∈ s.data, p.unformatted.isSome = true) ∧
      List.Pairwise (fun a b => a.originalIndex < b.originalIndex) s.data := by
  unfold DataConvertor.convert at hok
  cases hf : d.formatted with
  | none =>
    rw [hf] at hok
    cases hu : d.unformatted <;> rw [hu] at hok <;>
      simp only [Except.ok.injEq] at hok <;>
      (rw [← hok] at hy; simp [emptyBindingData] at hy)
  | some fmt =>
    rw [hf] at hok
    cases hu : d.unformatted with
    | none =>
      rw [hu] at hok
      simp only [Except.ok.injEq] at hok
      rw [← hok] at hy
      simp [emptyBindingData] at hy
    | some ufmt =>
      rw [hu] at hok
      cases fmt with
      | nil => exact absurd hok (by simp)
      | cons row0 frest =>
        simp only at hok
        cases hr : rowsLoop (((row0 :: frest).take
              (min (row0 :: frest).length MaxColumnNumber)).drop
              (if d.hasHeader then 1 else 0))
            (ufmt.drop (if d.hasHeader then 1 else 0)) 0 []
            ((List.range (min (row0.length - 1) MaxLineNumber)).map
              (fun _ => ⟨0, []⟩)) with
        | error e => rw [hr] at hok; exact absurd hok (by simp)
        | ok r =>
          obtain ⟨x, ysOut⟩ := r
          rw [hr] at hok
          simp only [Except.ok.injEq] at hok
          rw [← hok] at hy
          simp only [Option.some.injEq] at hy
          subst hy
          have hinit : ∀ s ∈ (List.range (min (row0.length - 1)
              MaxLineNumber)).map (fun _ => (⟨0, []⟩ : LineSeries)),
              seriesInv 0 s := by
            intro s hs
            simp only [List.mem_map] at hs
            obtain ⟨i, _, hi⟩ := hs
            rw [← hi]
            exact ⟨rfl, fun p hp => absurd hp (List.not_mem_nil p),
              List.Pairwise.nil, fun p hp => absurd hp (List.not_mem_nil p)⟩
          obtain ⟨m, hm⟩ := rowsLoop_inv _ _ _ _ _ _ _ hr hinit
          intro s hs
          obtain ⟨i1, i2, i3, _⟩ := hm s hs
          exact ⟨i1, i2, i3⟩

/-- Witness for C10 at the spec's own example scenario. -/
theorem convert_output_invariants_witness :
    (⟨2, [⟨0, .str "10", some 10⟩, ⟨1, .str "30", some 30⟩]⟩ :
        LineSeries).validDataCount =
      (⟨2, [⟨0, .str "10", some 10⟩, ⟨1, .str "30", some 30⟩]⟩ :
        LineSeries).data.length ∧
    (∀ p ∈ (⟨2, [⟨0, .str "10", some 10⟩, ⟨1, .str "30", some 30⟩]⟩ :
        LineSeries).data, p.unformatted.isSome = true) ∧
    List.Pairwise (fun a b => a.originalIndex < b.originalIndex)
      (⟨2, [⟨0, .str "10", some 10⟩, ⟨1, .str "30", some 30⟩]⟩ :
        LineSeries).data :=
  convert_output_invariants
    ⟨true, some [[.str "Time", .str "A", .str "B"],
                 [.str "Jan", .str "10", .str "20"],
                 [.str "Feb", .str "30", .str "40"]],
           some [[.num 0, .num 10, .num 20],
                 [.num 1, .num 10, .num 20],
                 [.num 2, .num 30, .num 40]]⟩
    ⟨[.str "A", .str "B"], [.str "Jan", .str "Feb"],
     some [⟨2, [⟨0, .str "10", some 10⟩, ⟨1, .str "30", some 30⟩]⟩,
           ⟨2, [⟨0, .str "20", some 20⟩, ⟨1, .str "40", some 40⟩]⟩]⟩
    _ (by rfl) rfl _ (List.mem_cons_self _ _)

example : LineChartPlotter.setMaxAndMin [] = .ok (some 0, some 1) := by rfl

example : LineChartPlotter.setMaxAndMin [⟨0, []⟩, ⟨0, []⟩] = .ok (some 0, some 1) := by rfl

example : LineChartPlotter.setMaxAndMin [⟨1, [⟨0, .str "7", some 7⟩]⟩] =
    .ok (some 0, some 7) := by rfl

example : LineChartPlotter.setMaxAndMin [⟨1, [⟨0, .str "-7", some (-7)⟩]⟩] =
    .ok (some (-7), some 0) := by rfl

example : LineChartPlotter.setMaxAndMin [⟨1, [⟨0, .str "0", some 0⟩]⟩] =
    .ok (some (-1), some 0) := by rfl

example : LineChartPlotter.setMaxAndMin [⟨2, [⟨0, .str "3", some 3⟩, ⟨1, .str "9", some 9⟩]⟩] =
    .ok (some 3, some 9) := by rfl

theorem seriesScan_skip_all :
    ∀ (ys : List LineSeries) (st : MMState), (∀ s ∈ ys, s.validDataCount = 0) →
      seriesScan ys st = .ok st := by
  intro ys
  induction ys with
  | nil => intro st _; rfl
  | cons s rest ih =>
    intro st h
    have h0 : s.validDataCount = 0 := h s (List.mem_cons_self s rest)
    simp only [seriesScan, h0, pointsLoop]
    exact ih st (fun s2 hs2 => h s2 (List.mem_cons_of_mem s hs2))

theorem pointsLoop_const {v : ℚ} :
    ∀ (pts : List Point) (st : MMState), (∀ p ∈ pts, p.unformatted = some v) →
      (st = (true, none, none) ∨ st = (false, some v, some v)) →
      pointsLoop pts pts.length st =
        .ok (if pts.isEmpty then st else (false, some v, some v)) := by
  intro pts
  induction pts with
  | nil => intro st _ _; simp [pointsLoop]
  | cons p rest ih =>
    intro st hall hst
    have hp : p.unformatted = some v := hall p (List.mem_cons_self p rest)
    have hstep : stepPoint st p = (false, some v, some v) := by
      rcases hst with h | h <;> subst h <;>
        simp [stepPoint, hp, jsMax, jsMin]
    simp only [List.length_cons, pointsLoop, hstep]
    rw [ih (false, some v, some v)
      (fun p2 hp2 => hall p2 (List.mem_cons_of_mem p hp2)) (Or.inr rfl)]
    by_cases hrest : rest.isEmpty <;> simp [hrest]

theorem seriesScan_const {v : ℚ} :
    ∀ (ys : List LineSeries) (st : MMState),
      (∀ s ∈ ys, s.validDataCount = s.data.length ∧
        ∀ p ∈ s.data, p.unformatted = some v) →
      (st = (true, none, none) ∨ st = (false, some v, some v)) →
      ∃ r, seriesScan ys st = .ok r ∧
        (r = (true, none, none) ∨ r = (false, some v, some v)) ∧
        ((∃ s ∈ ys, s.data ≠ []) → r = (false, some v, some v)) ∧
        ((∀ s ∈ ys, s.data = []) → r = st) := by
  intro ys
  induction ys with
  | nil =>
    intro st _ hst
    exact ⟨st, rfl, hst, by simp, fun _ => rfl⟩
  | cons s rest ih =>
    intro st hall hst
    obtain ⟨hc, hv⟩ := hall s (List.mem_cons_self s rest)
    have hpl := pointsLoop_const s.data st hv hst
    rw [← hc] at hpl
    set st1 : MMState := if s.data.isEmpty then st else (false, some v, some v) with hst1
    have hst1inv : st1 = (true, none, none) ∨ st1 = (false, some v, some v) := by
      by_cases he : s.data.isEmpty <;> simp only [hst1, he, if_true, if_false] <;>
        first
          | exact hst
          | exact Or.inr rfl
    obtain ⟨r, hr, hrinv, hrne, hrall⟩ := ih st1
      (fun s2 hs2 => hall s2 (List.mem_cons_of_mem s hs2)) hst1inv
    refine ⟨r, ?_, hrinv, ?_, ?_⟩
    · simp only [seriesScan, hpl]
      exact hr
    · intro hne
      rcases hne with ⟨s2, hs2, hne2⟩
      rcases List.mem_cons.mp hs2 with heq | hmem
      · subst heq
        have he : s2.data.isEmpty = false := by
          cases hd : s2.data with
          | nil => exact absurd hd hne2
          | cons a b => simp [hd]
        rcases hrall with _
        by_cases hrestall : ∀ s3 ∈ rest, s3.data = []
        · have := hrall hrestall
          rw [this, hst1, he]
          simp
        · push_neg at hrestall
          exact hrne ⟨hrestall.choose, hrestall.choose_spec.1, hrestall.choose_spec.2⟩
      · exact hrne ⟨s2, hmem, hne2⟩
    · intro hallemp
      have he : s.data = [] := hallemp s (List.mem_cons_self s rest)
      have : st1 = st := by simp [hst1, he]
      rw [← this]
      exact hrall (fun s2 hs2 => hallemp s2 (List.mem_cons_of_mem s hs2))

theorem stepPoint_mmInv {st : MMState} {p : Point}
    (hp : p.unformatted.isSome = true) (h : mmInv st) : mmInv (stepPoint st p) := by
  obtain ⟨q, hq⟩ := Option.isSome_iff_exists.mp hp
  rcases h with h | ⟨a, b, h, hba⟩ <;> subst h <;> right
  · exact ⟨q, q, by simp [stepPoint, hq, jsMax, jsMin], le_refl q⟩
  · refine ⟨max a q, min b q, by simp [stepPoint, hq, jsMax, jsMin], ?_⟩
    exact le_trans (min_le_left b q) (le_trans hba (le_max_left a q))

theorem pointsLoop_mmInv :
    ∀ (pts : List Point) (count : Nat) (st st2 : MMState),
      pointsLoop pts count st = .ok st2 →
      (∀ p ∈ pts, p.unformatted.isSome = true) → mmInv st → mmInv st2 := by
  intro pts
  induction pts with
  | nil =>
    intro count st st2 h _ hinv
    cases count with
    | zero => simp only [pointsLoop, Except.ok.injEq] at h; exact h ▸ hinv
    | succ n => simp [pointsLoop] at h
  | cons p rest ih =>
    intro count st st2 h hall hinv
    cases count with
    | zero => simp only [pointsLoop, Except.ok.injEq] at h; exact h ▸ hinv
    | succ n =>
      simp only [pointsLoop] at h
      exact ih n _ st2 h (fun p2 hp2 => hall p2 (List.mem_cons_of_mem p hp2))
        (stepPoint_mmInv (hall p (List.mem_cons_self p rest)) hinv)

theorem seriesScan_mmInv :
    ∀ (ys : List LineSeries) (st st2 : MMState),
      seriesScan ys st = .ok st2 →
      (∀ s ∈ ys, ∀ p ∈ s.data, p.unformatted.isSome = true) →
      mmInv st → mmInv st2 := by
  intro ys
  induction ys with
  | nil =>
    intro st st2 h _ hinv
    simp only [seriesScan, Except.ok.injEq] at h
    exact h ▸ hinv
  | cons s rest ih =>
    intro st st2 h hall hinv
    simp only [seriesScan] at h
    cases hp : pointsLoop s.data s.validDataCount st with
    | error e => rw [hp] at h; exact absurd h (by simp)
    | ok st1 =>
      rw [hp] at h
      exact ih st1 st2 h (fun s2 hs2 => hall s2 (List.mem_cons_of_mem s hs2))
        (pointsLoop_mmInv _ _ _ _ hp (hall s (List.mem_cons_self s rest)) hinv)

/-- C7: `setMaxAndMin` establishes the y-domain so that (i) with no valid
numeric point at all the domain is exactly `[0, 1]`; (ii) when all valid
points share one value `v` the domain is widened to include zero
(`[0, v]` for `v > 0`, `[v, 0]` for `v < 0`, `[-1, 0]` for `v = 0`); and
(iii) on `NaN`-free data the resulting domain is never degenerate:
`min < max`, both real numbers. -/
theorem setMaxAndMin_domain :
    (∀ ys : List LineSeries, (∀ s ∈ ys, s.validDataCount = 0) →
      LineChartPlotter.setMaxAndMin ys = .ok (some 0, some 1)) ∧
    (∀ (ys : List LineSeries) (v : ℚ),
      (∀ s ∈ ys, s.validDataCount = s.data.length ∧
        ∀ p ∈ s.data, p.unformatted = some v) →
      (∃ s ∈ ys, s.data ≠ []) →
      LineChartPlotter.setMaxAndMin ys =
        .ok (if 0 < v then (some 0, some v)
             else if v < 0 then (some v, some 0)
             else (some (-1), some 0))) ∧
    (∀ (ys : List LineSeries) (mn mx : Option ℚ),
      (∀ s ∈ ys, ∀ p ∈ s.data, p.unformatted.isSome = true) →
      LineChartPlotter.setMaxAndMin ys = .ok (mn, mx) →
      ∃ a b : ℚ, mn = some a ∧ mx = some b ∧ a < b) := by
  refine ⟨?_, ?_, ?_⟩
  · intro ys h
    unfold LineChartPlotter.setMaxAndMin
    rw [seriesScan_skip_all ys (true, none, none) h]
    rfl
  · intro ys v hall hne
    obtain ⟨r, hr, _, hrne, _⟩ := seriesScan_const ys (true, none, none) hall (Or.inl rfl)
    have hrv := hrne hne
    subst hrv
    unfold LineChartPlotter.setMaxAndMin
    rw [hr]
    rcases lt_trichotomy v 0 with hv | hv | hv
    · simp [jsNumEq, jsGtZero, jsLtZero, hv, not_lt_of_gt hv]
    · subst hv
      simp [jsNumEq, jsGtZero, jsLtZero]
    · simp [jsNumEq, jsGtZero, jsLtZero, hv, not_lt_of_gt hv]
  · intro ys mn mx hall h
    unfold LineChartPlotter.setMaxAndMin at h
    cases hs : seriesScan ys (true, none, none) with
    | error e => rw [hs] at h; exact absurd h (by simp)
    | ok r =>
      rw [hs] at h
      obtain ⟨first, mxv, mnv⟩ := r
      have hinv := seriesScan_mmInv ys _ _ hs hall (Or.inl rfl)
      cases first with
      | true =>
        simp only [if_pos, Except.ok.injEq, Prod.mk.injEq] at h
        exact ⟨0, 1, h.1.symm, h.2.symm, by norm_num⟩
      | false =>
        rcases hinv with hbad | ⟨a, b, heq, hba⟩
        · exact absurd hbad (by simp)
        · obtain ⟨heq1, heq2⟩ : mxv = some a ∧ mnv = some b := by
            injection heq with h1 h2
            injection h2 with h2 h3
            exact ⟨h2, h3⟩
          subst heq1
          subst heq2
          simp only [Bool.false_eq_true, if_false, jsNumEq, decide_eq_true_eq,
            jsGtZero, jsLtZero] at h
          by_cases hab : b = a
          · subst hab
            rw [if_pos rfl] at h
            by_cases h0 : 0 < b
            · rw [if_pos h0] at h
              simp only [Except.ok.injEq, Prod.mk.injEq] at h
              exact ⟨0, b, h.1.symm, h.2.symm, h0⟩
            · rw [if_neg h0] at h
              by_cases h1 : b < 0
              · rw [if_pos h1] at h
                simp only [Except.ok.injEq, Prod.mk.injEq] at h
                exact ⟨b, 0, h.1.symm, h.2.symm, h1⟩
              · rw [if_neg h1] at h
                simp only [Except.ok.injEq, Prod.mk.injEq] at h
                refine ⟨-1, b, h.1.symm, h.2.symm, ?_⟩
                have hb0 : b = 0 := le_antisymm (not_lt.mp h0) (not_lt.mp h1)
                rw [hb0]
                norm_num
          · rw [if_neg hab] at h
            simp only [Except.ok.injEq, Prod.mk.injEq] at h
            exact ⟨b, a, h.1.symm, h.2.symm, lt_of_le_of_ne hba hab⟩

/-- Witness for C7 at concrete series. -/
theorem setMaxAndMin_domain_witness :
    LineChartPlotter.setMaxAndMin [⟨0, []⟩] = .ok (some 0, some 1) ∧
    LineChartPlotter.setMaxAndMin [⟨1, [⟨0, .str "5", some 5⟩]⟩] =
      .ok (some 0, some 5) ∧
    (∃ a b : ℚ, (some 0 : Option ℚ) = some a ∧ (some 5 : Option ℚ) = some b ∧ a < b) := by
  refine ⟨?_, ?_, ?_⟩
  · exact setMaxAndMin_domain.1 [⟨0, []⟩] (by intro s hs; simp at hs; rw [hs])
  · have h := setMaxAndMin_domain.2.1 [⟨1, [⟨0, .str "5", some 5⟩]⟩] 5
      (by intro s hs; simp at hs; subst hs; exact ⟨rfl, by intro p hp; simp at hp; rw [hp]⟩)
      ⟨_, List.mem_cons_self _ _, by simp⟩
    rwa [if_pos (by norm_num)] at h
  · exact setMaxAndMin_domain.2.2 [⟨1, [⟨0, .str "5", some 5⟩]⟩] (some 0) (some 5)
      (by intro s hs; simp at hs; subst hs; intro p hp; simp at hp; rw [hp]; rfl)
      (by rfl)

example :
    LineChartPlotter.isPercentageFormat
      [⟨2, [⟨0, .str "1%", some 1⟩, ⟨1, .str "2%", some 2⟩]⟩] = .ok true := by
  have h : percentCountLoop [⟨0, .str "1%", some 1⟩, ⟨1, .str "2%", some 2⟩] 2 0 =
      .ok 2 := rfl
  simp only [LineChartPlotter.isPercentageFormat, h]
  norm_num

example :
    LineChartPlotter.isPercentageFormat
      [⟨2, [⟨0, .str "1", some 1⟩, ⟨1, .str "2", some 2⟩]⟩] = .ok false := by
  have h : percentCountLoop [⟨0, .str "1", some 1⟩, ⟨1, .str "2", some 2⟩] 2 0 =
      .ok 0 := rfl
  simp only [LineChartPlotter.isPercentageFormat, h]
  norm_num

/-- C4 counterexample: with one line of two points of which exactly one is
percent-formatted, the code accepts (`count = 1` is not `< 2 / 2` and not
`0`), yet one out of two is not a strict supermajority — the code demands
at least half, not more than half. -/
theorem isPercentageFormat_half_counterexample :
    LineChartPlotter.isPercentageFormat
        [⟨2, [⟨0, .str "1%", some 1⟩, ⟨1, .str "2", some 2⟩]⟩] = .ok true ∧
      ¬ specSupermajorityPercent
        [⟨2, [⟨0, .str "1%", some 1⟩, ⟨1, .str "2", some 2⟩]⟩] := by
  constructor
  · have h : percentCountLoop [⟨0, .str "1%", some 1⟩, ⟨1, .str "2", some 2⟩] 2 0 =
        .ok 1 := rfl
    simp only [LineChartPlotter.isPercentageFormat, h]
    norm_num
  · intro h
    have := h ⟨2, [⟨0, .str "1%", some 1⟩, ⟨1, .str "2", some 2⟩]⟩
      (List.mem_cons_self _ _)
    revert this
    decide

theorem percentCountLoop_eq :
    ∀ (pts : List Point) (n acc : Nat), n ≤ pts.length →
      (∀ p ∈ pts.take n, ∃ t, p.formatted = .str t) →
      percentCountLoop pts n acc =
        .ok (acc + ((pts.take n).filter (fun p => pointHasPercent p)).length) := by
  intro pts
  induction pts with
  | nil =>
    intro n acc hn _
    cases n with
    | zero => simp [percentCountLoop]
    | succ m => simp at hn
  | cons p rest ih =>
    intro n acc hn hstr
    cases n with
    | zero => simp [percentCountLoop]
    | succ m =>
      obtain ⟨t, ht⟩ := hstr p (by simp)
      simp only [percentCountLoop, ht, jsLastIndexOfPercent]
      rw [ih m _ (by simpa using Nat.le_of_succ_le_succ hn)
        (fun p2 hp2 => hstr p2 (by simp [List.mem_cons_of_mem]; right; exact hp2))]
      simp only [List.take_succ_cons, List.filter_cons, pointHasPercent, ht]
      cases hb : strHasPercent t with
      | true => simp [hb]; omega
      | false => simp [hb]

theorem rat_lt_half_iff (count vdc : Nat) :
    ((count : ℚ) < (vdc : ℚ) / 2) ↔ 2 * count < vdc := by
  rw [lt_div_iff₀ (by norm_num : (0 : ℚ) < 2)]
  constructor
  · intro h
    have h2 : ((2 * count : Nat) : ℚ) < ((vdc : Nat) : ℚ) := by push_cast; linarith
    exact_mod_cast h2
  · intro h
    have h2 : ((2 * count : Nat) : ℚ) < ((vdc : Nat) : ℚ) := by exact_mod_cast h
    push_cast at h2
    linarith

/-- C4 (amended): `isPercentageFormat` returns true exactly when, for
every line, at least half — and not zero — of the line's counted formatted
values contain a `"%"` sign.  (The claim's "strictly more than half" is
refuted by the counterexample; the code's test `count < j / 2` rejects
only counts strictly below half.) -/
theorem isPercentageFormat_iff (ys : List LineSeries)
    (hwf : ∀ s ∈ ys, s.validDataCount ≤ s.data.length ∧
      ∀ p ∈ s.data.take s.validDataCount, ∃ t, p.formatted = .str t) :
    LineChartPlotter.isPercentageFormat ys = .ok true ↔
      ∀ s ∈ ys, 2 * percentCount s ≥ s.validDataCount ∧ percentCount s ≠ 0 := by
  induction ys with
  | nil => simp [LineChartPlotter.isPercentageFormat]
  | cons s rest ih =>
    obtain ⟨hlen, hstr⟩ := hwf s (List.mem_cons_self s rest)
    have hloop := percentCountLoop_eq s.data s.validDataCount 0 hlen hstr
    simp only [Nat.zero_add] at hloop
    have hcnt : ((s.data.take s.validDataCount).filter
        (fun p => pointHasPercent p)).length = percentCount s := rfl
    rw [hcnt] at hloop
    simp only [LineChartPlotter.isPercentageFormat, hloop]
    by_cases hc : ((percentCount s : ℚ) < (s.validDataCount : ℚ) / 2 ∨ percentCount s = 0)
    · rw [if_pos hc]
      constructor
      · intro h; exact absurd h (by simp)
      · intro h
        obtain ⟨hge, hne⟩ := h s (List.mem_cons_self s rest)
        rcases hc with hlt | h0
        · rw [rat_lt_half_iff] at hlt; omega
        · exact absurd h0 hne
    · rw [if_neg hc]
      push_neg at hc
      obtain ⟨hge, hne⟩ := hc
      have hge2 : s.validDataCount ≤ 2 * percentCount s :=
        not_lt.mp (fun hlt => absurd ((rat_lt_half_iff _ _).mpr hlt) (not_lt.mpr hge))
      rw [ih (fun s2 hs2 => hwf s2 (List.mem_cons_of_mem s hs2))]
      constructor
      · intro h s2 hs2
        rcases List.mem_cons.mp hs2 with heq | hmem
        · subst heq; exact ⟨hge2, hne⟩
        · exact h s2 hmem
      · intro h s2 hs2
        exact h s2 (List.mem_cons_of_mem s hs2)

/-- Witness for C4's amended theorem: a line whose only counted value is
percent-formatted is accepted. -/
theorem isPercentageFormat_iff_witness :
    LineChartPlotter.isPercentageFormat [⟨1, [⟨0, .str "10%", some 1⟩]⟩] = .ok true := by
  refine (isPercentageFormat_iff [⟨1, [⟨0, .str "10%", some 1⟩]⟩] ?_).mpr ?_
  · intro s hs
    simp only [List.mem_singleton] at hs
    subst hs
    refine ⟨by simp, ?_⟩
    intro p hp
    simp only [List.take_succ_cons, List.take_zero, List.mem_singleton] at hp
    subst hp
    exact ⟨"10%", rfl⟩
  · decide

theorem lookupKV_setKV_same (m : List (String × α)) (k : String) (v : α) :
    lookupKV (setKV m k v) k = some v := by
  simp [lookupKV, setKV]

theorem lookupKV_setKV_diff (m : List (String × α)) (k k' : String) (v : α)
    (h : k' ≠ k) : lookupKV (setKV m k v) k' = lookupKV m k' := by
  have hbeq : (k == k') = false := beq_eq_false_iff_ne.mpr (Ne.symm h)
  simp [lookupKV, setKV, List.find?_cons, hbeq]

theorem cfgCore_settings {a b : SysState} (h : a.cfgCore = b.cfgCore) :
    a.settings = b.settings := congrArg (fun t => t.2.1) h

theorem cfgCore_keys {a b : SysState} (h : a.cfgCore = b.cfgCore) :
    a.keys = b.keys := congrArg (fun t => t.1) h

theorem cfgCore_listeners {a b : SysState} (h : a.cfgCore = b.cfgCore) :
    a.listeners = b.listeners := congrArg (fun t => t.2.2.1) h

theorem cfgCore_reentryFlag {a b : SysState} (h : a.cfgCore = b.cfgCore) :
    a.reentryFlag = b.reentryFlag := congrArg (fun t => t.2.2.2.1) h

theorem cfgCore_hostAvailable {a b : SysState} (h : a.cfgCore = b.cfgCore) :
    a.hostAvailable = b.hostAvailable := congrArg (fun t => t.2.2.2.2.1) h

theorem cfgCore_timers {a b : SysState} (h : a.cfgCore = b.cfgCore) :
    a.timers = b.timers := congrArg (fun t => t.2.2.2.2.2.1) h

theorem cfgCore_timeOutIDs {a b : SysState} (h : a.cfgCore = b.cfgCore) :
    a.timeOutIDs = b.timeOutIDs := congrArg (fun t => t.2.2.2.2.2.2.1) h

theorem notifyOne_core (st : SysState) (l : Listener) (k : String) (v : Value) :
    ((notifyOne st l k v).1).cfgCore = st.cfgCore := by
  cases l with
  | adapter =>
    simp only [notifyOne]
    split_ifs <;> rfl
  | observer i => rfl

theorem notifyAll_core :
    ∀ (ls : List Listener) (st : SysState) (k : String) (v : Value),
      ((notifyAll ls st k v).1).cfgCore = st.cfgCore := by
  intro ls
  induction ls with
  | nil => intro st k v; rfl
  | cons l rest ih =>
    intro st k v
    exact (ih (notifyOne st l k v).1 k v).trans (notifyOne_core st l k v)

theorem set_core (st : SysState) (k : String) (v : Value) (b : Bool) :
    ((Configuration.set st k v b).1).cfgCore =
      (st.keys, setKV st.settings k v, st.listeners, st.reentryFlag,
        st.hostAvailable, st.timers, st.timeOutIDs, st.nextId) := by
  unfold Configuration.set
  cases b with
  | false => rfl
  | true =>
    simp only [if_true]
    exact notifyAll_core _ _ k v

theorem set_settings (st : SysState) (k : String) (v : Value) (b : Bool) :
    (Configuration.set st k v b).1.settings = setKV st.settings k v := by
  have h := set_core st k v b
  exact congrArg (fun t => t.2.1) h

/-- C1 (amended): after the reset triggered in `onDataChanged` by a
line-count change, the `lineOrder`, `lineDisplay` and `lineTitleArray`
arrays stored in the configuration all have length `MaxLineNumber` (5) —
equal to each other, but equal to the new line count only when that count
is itself `MaxLineNumber`.  (The claim's "length equal to the new line
count" is refuted by the counterexample.) -/
theorem onDataChanged_reset_lengths (st : SysState) (bd nd : BindingData)
    (bdy ndy : List LineSeries) (st2 : SysState) (evs : List Event)
    (hbd : bd.yData = some bdy) (hnd : nd.yData = some ndy)
    (hdiff : ndy.length ≠ bdy.length)
    (h : LineChartPlotter.onDataChanged (some bd) (some nd) st = .ok (st2, evs)) :
    (lookupKV st2.settings wellKnownKeys.lineOrder).map valueLength =
      some MaxLineNumber ∧
    (lookupKV st2.settings wellKnownKeys.lineDisplay).map valueLength =
      some MaxLineNumber ∧
    (lookupKV st2.settings wellKnownKeys.lineTitleArray).map valueLength =
      some MaxLineNumber := by
  unfold LineChartPlotter.onDataChanged at h
  simp only [hbd, hnd] at h
  rw [if_pos hdiff] at h
  simp only [Except.ok.injEq, Prod.mk.injEq] at h
  obtain ⟨hst2, _⟩ := h
  rw [← hst2]
  rw [show ∀ stx : SysState, (resetLineTitleArray stx).1.settings =
      setKV (setKV stx.settings wellKnownKeys.lineTitleArray
        (.strList ((List.range MaxLineNumber).map (fun i => defaultLegendTitle (i + 1)))))
        wellKnownKeys.isLegendEdited (.bool false) from
    fun stx => by
      show (Configuration.set (Configuration.set stx wellKnownKeys.lineTitleArray _ true).1
        wellKnownKeys.isLegendEdited (.bool false) true).1.settings = _
      rw [set_settings, set_settings]]
  rw [show ∀ stx : SysState, (resetLineDisplay stx).1.settings =
      setKV stx.settings wellKnownKeys.lineDisplay
        (.boolList ((List.range MaxLineNumber).map (fun _ => true))) from
    fun stx => set_settings stx _ _ true]
  rw [show ∀ stx : SysState, (resetLineOrder stx).1.settings =
      setKV stx.settings wellKnownKeys.lineOrder
        (.numList ((List.range MaxLineNumber).map (fun i => (i : Int)))) from
    fun stx => set_settings stx _ _ true]
  refine ⟨?_, ?_, ?_⟩
  · rw [lookupKV_setKV_diff _ _ _ _ (by decide),
      lookupKV_setKV_diff _ _ _ _ (by decide),
      lookupKV_setKV_diff _ _ _ _ (by decide),
      lookupKV_setKV_same]
    decide
  · rw [lookupKV_setKV_diff _ _ _ _ (by decide),
      lookupKV_setKV_diff _ _ _ _ (by decide),
      lookupKV_setKV_same]
    decide
  · rw [lookupKV_setKV_diff _ _ _ _ (by decide),
      lookupKV_setKV_same]
    decide

/-- Witness for C1's amended theorem at a concrete transition (old data
has 1 line, new data has 2). -/
theorem onDataChanged_reset_lengths_witness :
    (lookupKV (match LineChartPlotter.onDataChanged
        (some ⟨[], [], some [⟨0, []⟩]⟩)
        (some ⟨[], [], some [⟨0, []⟩, ⟨0, []⟩]⟩) stEmpty with
      | .ok r => r.1
      | .error _ => stEmpty).settings wellKnownKeys.lineOrder).map valueLength =
      some MaxLineNumber := by
  have h := onDataChanged_reset_lengths stEmpty ⟨[], [], some [⟨0, []⟩]⟩
    ⟨[], [], some [⟨0, []⟩, ⟨0, []⟩]⟩ [⟨0, []⟩] [⟨0, []⟩, ⟨0, []⟩] _ _ rfl rfl
    (by decide) rfl
  exact h.1

/-- C1 counterexample: with the bound data changing from 1 line to 2
lines, the reset stores arrays of length 5 (`MaxLineNumber`), not of
length 2 (the new line count). -/
theorem onDataChanged_reset_lengths_counterexample :
    (lookupKV (match LineChartPlotter.onDataChanged
        (some ⟨[], [], some [⟨0, []⟩]⟩)
        (some ⟨[], [], some [⟨0, []⟩, ⟨0, []⟩]⟩) stEmpty with
      | .ok r => r.1
      | .error _ => stEmpty).settings wellKnownKeys.lineOrder).map valueLength =
      some 5 ∧
    ([(⟨0, []⟩ : LineSeries), ⟨0, []⟩].length = 2) ∧ (5 : Nat) ≠ 2 := by
  refine ⟨by rfl, rfl, by decide⟩

theorem notifyOne_flag (st : SysState) (l : Listener) (k : String) (v : Value)
    (h : st.reentryFlag = true) : notifyOne st l k v = (st, [.notify l k v]) := by
  cases l with
  | adapter => simp [notifyOne, h]
  | observer i => rfl

theorem notifyAll_flag :
    ∀ (ls : List Listener) (st : SysState) (k : String) (v : Value),
      st.reentryFlag = true →
      notifyAll ls st k v = (st, ls.map (fun l => .notify l k v)) := by
  intro ls
  induction ls with
  | nil => intro st k v _; rfl
  | cons l rest ih =>
    intro st k v h
    show ((notifyAll rest (notifyOne st l k v).1 k v).1,
      (notifyOne st l k v).2 ++ (notifyAll rest (notifyOne st l k v).1 k v).2) = _
    rw [notifyOne_flag st l k v h]
    rw [ih st k v h]
    simp

theorem set_flag (st : SysState) (k : String) (v : Value)
    (h : st.reentryFlag = true) :
    Configuration.set st k v true =
      ({ st with settings := setKV st.settings k v },
        st.listeners.map (fun l => .notify l k v)) := by
  unfold Configuration.set
  simp only [if_true]
  exact notifyAll_flag _ _ k v h

theorem loadAllKeys_spec :
    ∀ (ks : List String) (st : SysState), st.reentryFlag = true →
      (loadAllKeys ks st).1.reentryFlag = true ∧
      (loadAllKeys ks st).1.hostSettings = st.hostSettings ∧
      (loadAllKeys ks st).1.listeners = st.listeners ∧
      (∀ e ∈ (loadAllKeys ks st).2, e.isPersist = false) ∧
      (∀ k v l, k ∈ ks → lookupKV st.hostSettings k = some v →
        l ∈ st.listeners → Event.notify l k v ∈ (loadAllKeys ks st).2) := by
  intro ks
  induction ks with
  | nil =>
    intro st h
    refine ⟨h, rfl, rfl, ?_, ?_⟩
    · intro e he
      exact absurd he (List.not_mem_nil e)
    · intro k v l hk hlk hll
      exact absurd hk (List.not_mem_nil k)
  | cons key rest ih =>
    intro st h
    cases hl : lookupKV st.hostSettings key with
    | none =>
      have hred : loadAllKeys (key :: rest) st = loadAllKeys rest st := by
        simp only [loadAllKeys, hl]
      rw [hred]
      obtain ⟨i1, i2, i3, i4, i5⟩ := ih st h
      refine ⟨i1, i2, i3, i4, ?_⟩
      intro k v l hk hlk hll
      rcases List.mem_cons.mp hk with heq | hmem
      · subst heq; rw [hl] at hlk; cases hlk
      · exact i5 k v l hmem hlk hll
    | some v0 =>
      have hred : loadAllKeys (key :: rest) st =
          ((loadAllKeys rest ({ st with settings := setKV st.settings key v0 })).1,
            st.listeners.map (fun l => .notify l key v0) ++
              (loadAllKeys rest ({ st with settings := setKV st.settings key v0 })).2) := by
        simp only [loadAllKeys, hl, set_flag st key v0 h]
      rw [hred]
      obtain ⟨i1, i2, i3, i4, i5⟩ :=
        ih ({ st with settings := setKV st.settings key v0 }) h
      refine ⟨i1, i2, i3, ?_, ?_⟩
      · intro e he
        rcases List.mem_append.mp he with hm | hm
        · obtain ⟨l, _, hln⟩ := List.mem_map.mp hm
          rw [← hln]
          rfl
        · exact i4 e hm
      · intro k v l hk hlk hll
        rcases List.mem_cons.mp hk with heq | hmem
        · subst heq
          rw [hl] at hlk
          injection hlk with hv
          subst hv
          exact List.mem_append.mpr (Or.inl (List.mem_map_of_mem _ hll))
        · exact List.mem_append.mpr (Or.inr (i5 k v l hmem hlk hll))

/-- C3 (amended): during `Configurator.loadAll` the registered change
listeners ARE invoked for every value loaded from host storage (the bulk
load calls `configuration.set` with its default `notifyListeners = true`),
while the adapter's re-entrancy guard ensures that none of these writes is
recursively persisted back to host storage.  (The claim's "listener
notification is suppressed" is refuted by the counterexample.) -/
theorem loadAll_guard (st : SysState) :
    (Configurator.loadAll st).1.hostSettings = st.hostSettings ∧
    (∀ e ∈ (Configurator.loadAll st).2, e.isPersist = false) ∧
    (st.hostAvailable = true → ∀ k v l, k ∈ st.keys →
      lookupKV st.hostSettings k = some v → l ∈ st.listeners →
      Event.notify l k v ∈ (Configurator.loadAll st).2) := by
  unfold Configurator.loadAll
  cases hav : st.hostAvailable with
  | false =>
    simp only [Bool.not_false, if_true]
    refine ⟨trivial, ?_, ?_⟩
    · intro e he
      exact absurd he (List.not_mem_nil e)
    · intro hcontra
      exact Bool.noConfusion hcontra
  | true =>
    simp only [Bool.not_true, Bool.false_eq_true, if_false]
    obtain ⟨i1, i2, i3, i4, i5⟩ := loadAllKeys_spec st.keys
      ⟨st.keys, [], st.listeners, true, true, st.hostSettings, st.timers,
        st.timeOutIDs, st.nextId⟩ rfl
    exact ⟨i2, i4, fun _ k v l hk hlk hll => i5 k v l hk hlk hll⟩

/-- Witness for C3's amended theorem at the concrete state. -/
theorem loadAll_guard_witness :
    (Configurator.loadAll stC3).1.hostSettings = stC3.hostSettings ∧
    Event.notify (.observer 0) "title" (.str "t") ∈ (Configurator.loadAll stC3).2 := by
  refine ⟨(loadAll_guard stC3).1, ?_⟩
  exact (loadAll_guard stC3).2.2 rfl "title" (.str "t") (.observer 0)
    (List.mem_singleton.mpr rfl) rfl (List.mem_singleton.mpr rfl)

/-- C3 counterexample: during the bulk load the registered (non-adapter)
listener IS invoked for the loaded value — the claim's "registered change
listeners are not invoked for the values written during the bulk load" is
false. -/
theorem loadAll_notifies_counterexample :
    (Configurator.loadAll stC3).2 = [.notify (.observer 0) "title" (.str "t")] ∧
    Event.isNotify (.notify (.observer 0) "title" (.str "t")) = true := by
  exact ⟨rfl, rfl⟩

theorem cfgCore_nextId {a b : SysState} (h : a.cfgCore = b.cfgCore) :
    a.nextId = b.nextId := congrArg (fun t => t.2.2.2.2.2.2.2) h

theorem set_timers (st : SysState) (k : String) (v : Value) (b : Bool) :
    (Configuration.set st k v b).1.timers = st.timers :=
  congrArg (fun t => t.2.2.2.2.2.1) (set_core st k v b)

theorem set_timeOutIDs (st : SysState) (k : String) (v : Value) (b : Bool) :
    (Configuration.set st k v b).1.timeOutIDs = st.timeOutIDs :=
  congrArg (fun t => t.2.2.2.2.2.2.1) (set_core st k v b)

theorem notifyAll_persist :
    ∀ (ls : List Listener) (st : SysState) (k : String) (v : Value),
      st.reentryFlag = false → st.hostAvailable = true →
      (notifyAll ls st k v).2.filter Event.isPersist =
        (ls.filter (fun l => l == Listener.adapter)).map
          (fun _ => Event.persist k v) := by
  intro ls
  induction ls with
  | nil => intro st k v _ _; rfl
  | cons l rest ih =>
    intro st k v hflag hhost
    show ((notifyOne st l k v).2 ++
        (notifyAll rest (notifyOne st l k v).1 k v).2).filter Event.isPersist = _
    cases l with
    | adapter =>
      have hone : notifyOne st .adapter k v =
          ({ st with hostSettings := setKV st.hostSettings k v },
            [.notify .adapter k v, .persist k v]) := by
        simp [notifyOne, hflag, hhost]
      rw [hone]
      rw [List.filter_append]
      have hrest := ih { st with hostSettings := setKV st.hostSettings k v } k v hflag hhost
      rw [hrest]
      rfl
    | observer i =>
      show (([.notify (.observer i) k v] : List Event) ++
        (notifyAll rest st k v).2).filter Event.isPersist = _
      rw [List.filter_append]
      rw [ih st k v hflag hhost]
      rfl

theorem notifyAll_notify :
    ∀ (ls : List Listener) (st : SysState) (k : String) (v : Value),
      (notifyAll ls st k v).2.filter Event.isNotify =
        ls.map (fun l => Event.notify l k v) := by
  intro ls
  induction ls with
  | nil => intro st k v; rfl
  | cons l rest ih =>
    intro st k v
    show ((notifyOne st l k v).2 ++
        (notifyAll rest (notifyOne st l k v).1 k v).2).filter Event.isNotify = _
    rw [List.filter_append, ih _ k v]
    cases l with
    | adapter =>
      simp only [notifyOne]
      split_ifs <;> rfl
    | observer i => rfl

theorem set_events_persist (st : SysState) (k : String) (v : Value)
    (hflag : st.reentryFlag = false) (hhost : st.hostAvailable = true) :
    (Configuration.set st k v true).2.filter Event.isPersist =
      (st.listeners.filter (fun l => l == Listener.adapter)).map
        (fun _ => Event.persist k v) := by
  unfold Configuration.set
  simp only [if_true]
  exact notifyAll_persist _ _ k v hflag hhost

theorem set_events_notify (st : SysState) (k : String) (v : Value) :
    (Configuration.set st k v true).2.filter Event.isNotify =
      st.listeners.map (fun l => Event.notify l k v) := by
  unfold Configuration.set
  simp only [if_true]
  exact notifyAll_notify _ _ k v

theorem find?_filter_none {p q : α → Bool} (l : List α)
    (h : ∀ a, p a = true → q a = false) : (l.filter q).find? p = none := by
  induction l with
  | nil => rfl
  | cons a rest ih =>
    cases hq : q a with
    | false => simp only [List.filter_cons, hq, Bool.false_eq_true, if_false]; exact ih
    | true =>
      have hp : p a = false := by
        cases hp : p a with
        | false => rfl
        | true => rw [h a hp] at hq; cases hq
      simp only [List.filter_cons, hq, if_true, List.find?_cons, hp]
      exact ih

theorem lookupKV_removeKV (m : List (String × α)) (k : String) :
    lookupKV (removeKV m k) k = none := by
  unfold lookupKV removeKV
  rw [find?_filter_none]
  · rfl
  · intro a ha
    simp only [bne, ha, Bool.not_true]

theorem filter_adapter_of_count_one {l : List Listener}
    (h : l.count .adapter = 1) :
    l.filter (fun x => x == Listener.adapter) = [.adapter] := by
  have hlen : (l.filter (fun x => x == Listener.adapter)).length = 1 := by
    rw [← List.countP_eq_length_filter]
    exact h
  have hall : ∀ x ∈ l.filter (fun x => x == Listener.adapter), x = .adapter := by
    intro x hx
    exact eq_of_beq (List.mem_filter.mp hx).2
  cases hf : l.filter (fun x => x == Listener.adapter) with
  | nil => rw [hf] at hlen; cases hlen
  | cons x rest =>
    rw [hf] at hlen hall
    cases rest with
    | nil => rw [hall x (List.mem_cons_self x [])]
    | cons y rest2 => simp at hlen

theorem delaySet_found (st : SysState) (k : String) (v : Value) (tid : Nat)
    (hl : lookupKV st.timeOutIDs k = some tid) :
    Configuration.delaySet st k v =
      { st with
          timers := st.timers.filter (fun t => t.id != tid) ++ [⟨st.nextId + 1, k, v⟩],
          timeOutIDs := setKV st.timeOutIDs k (st.nextId + 1),
          nextId := st.nextId + 1 } := by
  unfold Configuration.delaySet
  rw [hl]

theorem delaySet_notfound (st : SysState) (k : String) (v : Value)
    (hl : lookupKV st.timeOutIDs k = none) :
    Configuration.delaySet st k v =
      { st with
          timers := st.timers ++ [⟨st.nextId + 1, k, v⟩],
          timeOutIDs := setKV st.timeOutIDs k (st.nextId + 1),
          nextId := st.nextId + 1 } := by
  unfold Configuration.delaySet
  rw [hl]

theorem delaySet_shape (st : SysState) (k : String) (v : Value)
    (h2 : ∀ t ∈ st.timers, t.key = k → lookupKV st.timeOutIDs k = some t.id) :
    ∃ A : List Timer,
      Configuration.delaySet st k v =
        { st with
            timers := A ++ [⟨st.nextId + 1, k, v⟩],
            timeOutIDs := setKV st.timeOutIDs k (st.nextId + 1),
            nextId := st.nextId + 1 } ∧
      (∀ t ∈ A, t ∈ st.timers) ∧ (∀ t ∈ A, t.key ≠ k) := by
  cases hl : lookupKV st.timeOutIDs k with
  | none =>
    refine ⟨st.timers, delaySet_notfound st k v hl, fun t ht => ht, ?_⟩
    intro t ht hk
    rw [h2 t ht hk] at hl
    cases hl
  | some tid =>
    refine ⟨st.timers.filter (fun t => t.id != tid), delaySet_found st k v tid hl, ?_, ?_⟩
    · intro t ht
      exact List.mem_of_mem_filter ht
    · intro t ht hk
      obtain ⟨htm, htp⟩ := List.mem_filter.mp ht
      rw [h2 t htm hk] at hl
      injection hl with hl2
      rw [hl2] at htp
      simp at htp

theorem fireTimer_none (st : SysState) (tid : Nat)
    (h : st.timers.find? (fun t => t.id == tid) = none) :
    fireTimer st tid = (st, []) := by
  unfold fireTimer
  rw [h]

theorem fireTimer_found (st : SysState) (tid : Nat) (t : Timer)
    (h : st.timers.find? (fun t2 => t2.id == tid) = some t) :
    (fireTimer st tid).2 =
      (Configuration.set { st with timers := st.timers.filter (fun t2 => t2.id != tid) }
        t.key t.value true).2 ∧
    (fireTimer st tid).1.settings =
      (Configuration.set { st with timers := st.timers.filter (fun t2 => t2.id != tid) }
        t.key t.value true).1.settings ∧
    (fireTimer st tid).1.timers =
      (Configuration.set { st with timers := st.timers.filter (fun t2 => t2.id != tid) }
        t.key t.value true).1.timers ∧
    (fireTimer st tid).1.timeOutIDs =
      removeKV (Configuration.set
        { st with timers := st.timers.filter (fun t2 => t2.id != tid) }
        t.key t.value true).1.timeOutIDs t.key := by
  unfold fireTimer
  rw [h]
  exact ⟨rfl, rfl, rfl, rfl⟩

theorem set_events_persist_count (st : SysState) (k : String) (v : Value)
    (hflag : st.reentryFlag = false) (hhost : st.hostAvailable = true)
    (hcount : st.listeners.count .adapter = 1) :
    (Configuration.set st k v true).2.filter Event.isPersist = [.persist k v] := by
  rw [set_events_persist _ _ _ hflag hhost, filter_adapter_of_count_one hcount]
  rfl

theorem find?_append_left_none {p : α → Bool} {l1 l2 : List α}
    (h : ∀ a ∈ l1, p a = false) : (l1 ++ l2).find? p = l2.find? p := by
  induction l1 with
  | nil => rfl
  | cons a rest ih =>
    simp only [List.cons_append, List.find?_cons, h a (List.mem_cons_self a rest)]
    exact ih (fun a2 ha2 => h a2 (List.mem_cons_of_mem a ha2))

/-- C5: calling `delaySet(k, v1)` and then `delaySet(k, v2)` before the
first delay elapses cancels the pending timer for `k`: exactly one pending
timer for `k` remains, holding `v2`; firing the cancelled timer's id is a
no-op; and firing the live timer performs exactly one write of `v2` — one
notification per registered listener in order, hence exactly one persisted
write through the adapter — and leaves no pending timer for `k`. -/
theorem delaySet_debounce (st : SysState) (k : String) (v1 v2 : Value)
    (h1 : ∀ t ∈ st.timers, t.id ≤ st.nextId)
    (h2 : ∀ t ∈ st.timers, t.key = k → lookupKV st.timeOutIDs k = some t.id)
    (hflag : st.reentryFlag = false) (hhost : st.hostAvailable = true)
    (hadapt : st.listeners.count .adapter = 1) :
    (Configuration.delaySet (Configuration.delaySet st k v1) k v2).timers.filter
        (fun t => t.key == k) = [⟨st.nextId + 2, k, v2⟩] ∧
    fireTimer (Configuration.delaySet (Configuration.delaySet st k v1) k v2)
        (st.nextId + 1) =
      (Configuration.delaySet (Configuration.delaySet st k v1) k v2, []) ∧
    lookupKV (fireTimer (Configuration.delaySet (Configuration.delaySet st k v1) k v2)
        (st.nextId + 2)).1.settings k = some v2 ∧
    lookupKV (fireTimer (Configuration.delaySet (Configuration.delaySet st k v1) k v2)
        (st.nextId + 2)).1.timeOutIDs k = none ∧
    (fireTimer (Configuration.delaySet (Configuration.delaySet st k v1) k v2)
        (st.nextId + 2)).1.timers.filter (fun t => t.key == k) = [] ∧
    (fireTimer (Configuration.delaySet (Configuration.delaySet st k v1) k v2)
        (st.nextId + 2)).2.filter Event.isPersist = [.persist k v2] ∧
    (fireTimer (Configuration.delaySet (Configuration.delaySet st k v1) k v2)
        (st.nextId + 2)).2.filter Event.isNotify =
      st.listeners.map (fun l => Event.notify l k v2) := by
  obtain ⟨A, hshape, hmemA, hkeyA⟩ := delaySet_shape st k v1 h2
  have hA1 : ∀ t ∈ A, t.id ≤ st.nextId := fun t ht => h1 t (hmemA t ht)
  have hlook1 : lookupKV (Configuration.delaySet st k v1).timeOutIDs k =
      some (st.nextId + 1) := by
    rw [hshape]
    exact lookupKV_setKV_same _ _ _
  have hfilterA : A.filter (fun t => t.id != (st.nextId + 1)) = A := by
    rw [List.filter_eq_self]
    intro t ht
    have hle := hA1 t ht
    simp only [bne_iff_ne, ne_eq]
    omega
  have hst2 : Configuration.delaySet (Configuration.delaySet st k v1) k v2 =
      { st with
          timers := A ++ [⟨st.nextId + 2, k, v2⟩],
          timeOutIDs := setKV (setKV st.timeOutIDs k (st.nextId + 1)) k (st.nextId + 2),
          nextId := st.nextId + 2 } := by
    rw [delaySet_found _ k v2 (st.nextId + 1) hlook1, hshape]
    simp [List.filter_append, hfilterA]
  have hAnil : A.filter (fun t => t.key == k) = [] := by
    rw [List.filter_eq_nil_iff]
    intro t ht
    simp only [beq_iff_eq]
    exact hkeyA t ht
  have hAfilter2 : (A ++ [(⟨st.nextId + 2, k, v2⟩ : Timer)]).filter
      (fun t2 => t2.id != (st.nextId + 2)) = A := by
    rw [List.filter_append]
    have hAkeep : A.filter (fun t2 => t2.id != (st.nextId + 2)) = A := by
      rw [List.filter_eq_self]
      intro t ht
      have hle := hA1 t ht
      simp only [bne_iff_ne, ne_eq]
      omega
    rw [hAkeep]
    simp
  have hfind : ({ st with
      timers := A ++ [⟨st.nextId + 2, k, v2⟩],
      timeOutIDs := setKV (setKV st.timeOutIDs k (st.nextId + 1)) k (st.nextId + 2),
      nextId := st.nextId + 2 } : SysState).timers.find?
        (fun t2 => t2.id == st.nextId + 2) = some ⟨st.nextId + 2, k, v2⟩ := by
    show (A ++ [(⟨st.nextId + 2, k, v2⟩ : Timer)]).find?
      (fun t2 => t2.id == st.nextId + 2) = _
    rw [find?_append_left_none]
    · simp
    · intro t ht
      have hle := hA1 t ht
      show (t.id == st.nextId + 2) = false
      simp only [beq_eq_false_iff_ne, ne_eq]
      omega
  refine ⟨?_, ?_, ?_, ?_, ?_, ?_, ?_⟩
  · rw [hst2]
    show (A ++ [(⟨st.nextId + 2, k, v2⟩ : Timer)]).filter (fun t => t.key == k) = _
    rw [List.filter_append, hAnil]
    simp
  · rw [hst2]
    apply fireTimer_none
    show (A ++ [(⟨st.nextId + 2, k, v2⟩ : Timer)]).find?
      (fun t => t.id == st.nextId + 1) = none
    rw [List.find?_eq_none]
    intro t ht
    rcases List.mem_append.mp ht with hm | hm
    · have hle := hA1 t hm
      show ¬ (t.id == st.nextId + 1) = true
      simp only [beq_iff_eq]
      omega
    · simp only [List.mem_singleton] at hm
      subst hm
      show ¬ (st.nextId + 2 == st.nextId + 1) = true
      simp only [beq_iff_eq]
      omega
  · rw [hst2, (fireTimer_found _ _ _ hfind).2.1, set_settings]
    exact lookupKV_setKV_same _ _ _
  · rw [hst2, (fireTimer_found _ _ _ hfind).2.2.2]
    exact lookupKV_removeKV _ _
  · rw [hst2, (fireTimer_found _ _ _ hfind).2.2.1, set_timers]
    show ((A ++ [(⟨st.nextId + 2, k, v2⟩ : Timer)]).filter
      (fun t2 => t2.id != (st.nextId + 2))).filter (fun t => t.key == k) = []
    rw [hAfilter2]
    exact hAnil
  · rw [hst2, (fireTimer_found _ _ _ hfind).1]
    exact set_events_persist_count _ _ _ hflag hhost hadapt
  · rw [hst2, (fireTimer_found _ _ _ hfind).1, set_events_notify]

/-- Witness for C5 at a concrete state and concrete values. -/
theorem delaySet_debounce_witness :
    (Configuration.delaySet (Configuration.delaySet stC5 "title" (.str "a"))
        "title" (.str "b")).timers.filter (fun t => t.key == "title") =
      [⟨2, "title", .str "b"⟩] ∧
    lookupKV (fireTimer (Configuration.delaySet (Configuration.delaySet stC5 "title"
        (.str "a")) "title" (.str "b")) 2).1.settings "title" = some (.str "b") ∧
    (fireTimer (Configuration.delaySet (Configuration.delaySet stC5 "title"
        (.str "a")) "title" (.str "b")) 2).2.filter Event.isPersist =
      [.persist "title" (.str "b")] := by
  obtain ⟨c1, c2, c3, c4, c5, c6, c7⟩ := delaySet_debounce stC5 "title"
    (.str "a") (.str "b")
    (by intro t ht; exact absurd ht (List.not_mem_nil t))
    (by intro t ht; exact absurd ht (List.not_mem_nil t))
    rfl rfl (by decide)
  exact ⟨c1, c3, c6⟩

example :
    ThemeProvider.CurrentTheme (some [⟨"a", "a.css"⟩, ⟨"b", "b.css"⟩]) "b" =
      .ok (some ⟨"b", "b.css"⟩) := by rfl

example : ThemeProvider.CurrentTheme none "a" = .error () := by rfl

/-- C9: for every loaded theme catalog and every current theme id that
matches no catalog entry (`getThemeById` returns `null`), the
`CurrentTheme` getter resolves to the `Default` theme — the first entry of
the catalog — and does not raise an error. -/
theorem currentTheme_falls_back_to_default (cat : List Theme) (id : String)
    (hmiss : ThemeProvider.getThemeById (some cat) id = .ok none)
    (hne : cat ≠ []) :
    ThemeProvider.CurrentTheme (some cat) id = ThemeProvider.Default (some cat) ∧
    ∃ t, ThemeProvider.CurrentTheme (some cat) id = .ok (some t) ∧
      cat.head? = some t := by
  have hcur : ThemeProvider.CurrentTheme (some cat) id =
      ThemeProvider.Default (some cat) := by
    unfold ThemeProvider.CurrentTheme
    rw [hmiss]
  refine ⟨hcur, ?_⟩
  cases cat with
  | nil => exact absurd rfl hne
  | cons t rest =>
    refine ⟨t, ?_, rfl⟩
    rw [hcur]
    rfl

/-- Witness for C9 at a concrete catalog and a missing id. -/
theorem currentTheme_falls_back_to_default_witness :
    ThemeProvider.CurrentTheme (some [⟨"a", "a.css"⟩, ⟨"b", "b.css"⟩]) "zzz" =
      ThemeProvider.Default (some [⟨"a", "a.css"⟩, ⟨"b", "b.css"⟩]) :=
  (currentTheme_falls_back_to_default [⟨"a", "a.css"⟩, ⟨"b", "b.css"⟩] "zzz"
    (by rfl) (by simp)).1

/-- C8: in `onElementResize`, under the layout consistency invariants
(body content width = element width + peer widths, peer at or above its
minimum, element at or above its minimum), whenever widths are set: the
dragged element's resulting width never drops below its own computed
minimum, the peer absorbs exactly the width delta, the peer never drops
below its own minimum, and on growth the dragged element's width is capped
at body width minus the peer's minimum minus the second peer's width. -/
theorem onElementResize_clamp (body emin p1min p2w ncb w0 ow0 p1w : ℚ)
    (hgeom : body = ow0 + ncb + p1w + p2w)
    (hpeer : p1w ≥ p1min)
    (hmin : ow0 + ncb ≥ emin) :
    ∀ p1 ew, Layouter.onElementResize body emin p1min p2w ncb w0 ow0 =
        some (p1, ew) →
      ew ≥ emin ∧
      p1 = p1w - (ew - (ow0 + ncb)) ∧
      p1 ≥ p1min ∧
      (w0 + ncb > ow0 + ncb → ew ≤ body - p1min - p2w) := by
  intro p1 ew h
  simp only [Layouter.onElementResize] at h
  split_ifs at h with hgrow hlt heq hgt
  all_goals try cases h
  all_goals refine ⟨by linarith, by linarith, by linarith, ?_⟩
  all_goals intro hcontra
  all_goals linarith

/-- Witness for C8: a concrete growth drag capped by the peer's minimum.
With body 100, element minimum 10, peer minimum 20, second peer width 30,
origin width 40 and requested width 70, the element is capped at 50 and
the peer lands exactly on its minimum 20. -/
theorem onElementResize_clamp_witness :
    Layouter.onElementResize 100 10 20 30 0 70 40 = some (20, 50) ∧
    (50 : ℚ) ≥ 10 ∧ (20 : ℚ) = 30 - (50 - (40 + 0)) ∧ (20 : ℚ) ≥ 20 ∧
    ((70 : ℚ) + 0 > 40 + 0 → (50 : ℚ) ≤ 100 - 20 - 30) := by
  have hres : Layouter.onElementResize 100 10 20 30 0 70 40 = some (20, 50) := by
    simp only [Layouter.onElementResize]
    norm_num
  have h := onElementResize_clamp 100 10 20 30 0 70 40 30
    (by norm_num) (by norm_num) (by norm_num) 20 50 hres
  exact ⟨hres, h.1, h.2.1, h.2.2.1, h.2.2.2⟩

end ModernTrend
